import Mathlib

/-!
Verification of the open-weather-router-api request pipeline.

The definitions below are a shallow embedding of the JavaScript source:
`src/services/ApiKeyManager.js` (credential ledger and selector) and
`src/services/WeatherService.js` (cache, in-flight coalescing, fetch
pipeline with retry), plus the `/onecall` route handler.
Strings are modelled as `List Char` where character-level reasoning is
needed; machine state is passed explicitly; Redis counters become a pure
ledger map keyed by credential id.
-/

namespace Weather

/-- Validated query parameters after the route handler strips `appid`
(`const { appid, ...weatherParams } = request.query`).  `lat`/`lon` hold
the decimal rendering of the validated numbers; the optional fields are
absent when the client omitted them. -/
structure WeatherParams where
  lat : List Char
  lon : List Char
  exclude : Option (List Char)
  units : Option (List Char)
  lang : Option (List Char)
deriving DecidableEq, Repr

/-- `WeatherService.generateCacheKey`: the fingerprint
`weather:lat:<lat>:lon:<lon>[:exclude:<e>][:units:<u>][:lang:<l>]`,
with each optional part present exactly when the parameter is. -/
def optPart (tag : List Char) : Option (List Char) → List Char
  | none => []
  | some v => ':' :: tag ++ ':' :: v

def generateCacheKey (p : WeatherParams) : List Char :=
  "weather:lat:".toList ++ p.lat ++ ":lon:".toList ++ p.lon
    ++ optPart "exclude".toList p.exclude
    ++ optPart "units".toList p.units
    ++ optPart "lang".toList p.lang

/-- A list of characters is colon-free. -/
def colonFree (s : List Char) : Prop := ':' ∉ s

instance (s : List Char) : Decidable (colonFree s) :=
  inferInstanceAs (Decidable (':' ∉ s))

/-! ### The validated parameter domain (Joi schema of the `/onecall` route)

`lat`/`lon` are Joi numbers in range; their decimal renderings consist of
digits, `-` and `.`.  `exclude` matches
`^(current|minutely|hourly|daily|alerts)(,(current|minutely|hourly|daily|alerts))*$`,
i.e. a non-empty comma-join of the five section words.  `units` is one of
`standard`, `metric`, `imperial`.  `lang` is any string of 2 to 5
characters. -/

def numChar (c : Char) : Prop := c.isDigit ∨ c = '-' ∨ c = '.'

def numericLit (s : List Char) : Prop := s ≠ [] ∧ ∀ c ∈ s, numChar c

def excludeWords : List (List Char) :=
  ["current".toList, "minutely".toList, "hourly".toList, "daily".toList, "alerts".toList]

/-- Comma-join, the language of the `exclude` regular expression. -/
def joinComma : List (List Char) → List Char
  | [] => []
  | [w] => w
  | w :: ws => w ++ ',' :: joinComma ws

def excludeValid (e : List Char) : Prop :=
  ∃ parts : List (List Char), parts ≠ [] ∧ (∀ w ∈ parts, w ∈ excludeWords) ∧ e = joinComma parts

def unitsValid (u : List Char) : Prop :=
  u ∈ ["standard".toList, "metric".toList, "imperial".toList]

def langValid (l : List Char) : Prop := 2 ≤ l.length ∧ l.length ≤ 5

def validParams (p : WeatherParams) : Prop :=
  numericLit p.lat ∧ numericLit p.lon
    ∧ (∀ e ∈ p.exclude, excludeValid e)
    ∧ (∀ u ∈ p.units, unitsValid u)
    ∧ (∀ l ∈ p.lang, langValid l)

instance (c : Char) : Decidable (numChar c) := by
  unfold numChar; infer_instance

instance (s : List Char) : Decidable (numericLit s) := by
  unfold numericLit; infer_instance

instance (u : List Char) : Decidable (unitsValid u) := by
  unfold unitsValid; infer_instance

instance (l : List Char) : Decidable (langValid l) := by
  unfold langValid; infer_instance

/-- A concrete validated parameter set (Shanghai example from the docs). -/
def sampleParamsA : WeatherParams :=
  ⟨"31.2304".toList, "121.4737".toList, some "daily".toList,
    some "metric".toList, some "zh_cn".toList⟩

/-- Same as `sampleParamsA` but with different `units`. -/
def sampleParamsB : WeatherParams :=
  ⟨"31.2304".toList, "121.4737".toList, some "daily".toList,
    some "imperial".toList, some "zh_cn".toList⟩

/-! ### ApiKeyManager: credentials and the per-day ledger

`ApiKeyManager.loadApiKeys` turns the comma-separated secret list into
credential records `{id: "key_<n>", key, dailyLimit, priority: index}`.
The Redis counters `usage:<id>:<day>` / `errors:<id>:<day>` for the fixed
current DayKey become a pure ledger state mapping credential ids to
counts (absent keys read as 0, matching `parseInt(await get(k) || 0)`).
The 48-hour TTL refresh and the `times:<id>:<day>` timestamp list that
`recordUsage` also writes are external-store bookkeeping with no effect
on the per-day counters and are not part of this state. -/

structure KeyInfo where
  id : String
  key : String
  dailyLimit : Nat
  priority : Nat
deriving DecidableEq, Repr

def loadApiKeys (dailyLimit : Nat) (secrets : List String) : List KeyInfo :=
  secrets.enum.map fun ik => ⟨s!"key_{ik.1 + 1}", ik.2, dailyLimit, ik.1⟩

/-- Per-day counters of the shared ledger, for the current DayKey. -/
structure Ledger where
  usage : String → Nat
  errors : String → Nat

/-- `ApiKeyManager.recordUsage`: atomically increment the usage counter. -/
def recordUsage (st : Ledger) (keyId : String) : Ledger :=
  { st with usage := fun j => if j = keyId then st.usage j + 1 else st.usage j }

/-- `ApiKeyManager.recordError`: atomically increment the error counter. -/
def recordError (st : Ledger) (keyId : String) : Ledger :=
  { st with errors := fun j => if j = keyId then st.errors j + 1 else st.errors j }

/-- A ledger mutation performed by the fetch pipeline. -/
inductive LedgerOp where
  | use (keyId : String)
  | err (keyId : String)
deriving DecidableEq, Repr

def applyOp (st : Ledger) : LedgerOp → Ledger
  | .use i => recordUsage st i
  | .err i => recordError st i

/-- An available-key record: `{...keyInfo, currentUsage, currentErrors}`. -/
structure AvailableKey extends KeyInfo where
  currentUsage : Nat
  currentErrors : Nat
deriving DecidableEq, Repr

/-- The comparator of `getAllAvailableKeys`'s final `sort`:
`(a, b) => a.priority !== b.priority ? a.priority - b.priority
         : a.currentUsage - b.currentUsage`. -/
def keyOrder (a b : AvailableKey) : Prop :=
  a.priority < b.priority ∨ (a.priority = b.priority ∧ a.currentUsage ≤ b.currentUsage)

instance : DecidableRel keyOrder := fun a b => by
  unfold keyOrder; infer_instance

/-- `ApiKeyManager.getAllAvailableKeys`: filter the credentials whose
usage is below the daily limit and whose error count is below 3, then
sort with the priority-first comparator (a stable sort, as in V8). -/
def getAllAvailableKeys (dailyLimit : Nat) (keys : List KeyInfo) (st : Ledger) :
    List AvailableKey :=
  (keys.filterMap fun k =>
    if st.usage k.id < dailyLimit ∧ st.errors k.id < 3 then
      some ⟨k, st.usage k.id, st.errors k.id⟩
    else none).insertionSort keyOrder

/-- A credential is selectable in a ledger state. -/
def selectable (dailyLimit : Nat) (st : Ledger) (k : KeyInfo) : Prop :=
  st.usage k.id < dailyLimit ∧ st.errors k.id < 3

instance (dl : Nat) (st : Ledger) (k : KeyInfo) : Decidable (selectable dl st k) := by
  unfold selectable; infer_instance

/-- The ordering asserted by the specification for `SelectAll`:
current usage ascending, priority ascending as tie-break. -/
def specKeyOrder (a b : AvailableKey) : Prop :=
  a.currentUsage < b.currentUsage
    ∨ (a.currentUsage = b.currentUsage ∧ a.priority ≤ b.priority)

instance : DecidableRel specKeyOrder := fun a b => by
  unfold specKeyOrder; infer_instance

/-- A two-credential configuration used for concrete evaluations. -/
def demoKeys : List KeyInfo := loadApiKeys 1000 ["secretA", "secretB"]

def demoKey1 : KeyInfo := ⟨"key_1", "secretA", 1000, 0⟩

/-- Ledger where `key_1` is error-blocked (3 consecutive errors). -/
def demoLedgerErr : Ledger :=
  ⟨fun _ => 0, fun i => if i = "key_1" then 3 else 0⟩

/-- Ledger where `key_1` has strictly more usage than `key_2`. -/
def demoLedgerUsage : Ledger :=
  ⟨fun i => if i = "key_1" then 5 else 0, fun _ => 0⟩

/-! ### DayKey: `ApiKeyManager.getTodayString`

The source computes `new Date().toISOString().split('T')[0]`.  A JS
`Date` is an epoch-millisecond instant; `Date.prototype.toISOString`
(ECMA-262) always renders the instant in UTC on the proleptic Gregorian
calendar, regardless of the process time zone.  We model an instant as
its epoch milliseconds together with the server's zone offset (minutes
east of UTC), embed the UTC calendar conversion (the standard
civil-from-days algorithm that realizes the ECMA-262 date fields), and
render the `YYYY-MM-DD` part. -/

def msPerDay : Int := 86400000

/-- The UTC day number of an epoch-millisecond instant (floor division,
as negative instants round toward minus infinity). -/
def epochDay (ms : Int) : Int := Int.fdiv ms msPerDay

/-- Proleptic-Gregorian `(year, month, day)` of a day number
(days since 1970-01-01). -/
def civilFromDays (z : Int) : Int × Nat × Nat :=
  let z' := z + 719468
  let era := Int.fdiv z' 146097
  let doe := (z' - era * 146097).toNat
  let yoe := (doe - doe / 1460 + doe / 36524 - doe / 146096) / 365
  let doy := doe - (365 * yoe + yoe / 4 - yoe / 100)
  let mp := (5 * doy + 2) / 153
  let d := doy - (153 * mp + 2) / 5 + 1
  let m := if mp < 10 then mp + 3 else mp - 9
  let y : Int := era * 400 + yoe + (if m ≤ 2 then 1 else 0)
  (y, m, d)

def digitChar (d : Nat) : Char := Char.ofNat (48 + d)

/-- Zero-padded two-digit field of an ISO date (month and day are always
below 100, so two digits render them exactly). -/
def pad2chars (n : Nat) : List Char :=
  [digitChar (n / 10 % 10), digitChar (n % 10)]

/-- Zero-padded four-digit year field of an ISO date (exact for years
0–9999, the range of `toISOString`'s basic format). -/
def pad4chars (n : Nat) : List Char :=
  [digitChar (n / 1000 % 10), digitChar (n / 100 % 10),
    digitChar (n / 10 % 10), digitChar (n % 10)]

/-- The date part of `Date.prototype.toISOString`, i.e.
`toISOString().split('T')[0]`, for an epoch-millisecond instant whose
year lies in 0–9999 (the basic-format range of `toISOString`). -/
def isoDatePart (ms : Int) : List Char :=
  let c := civilFromDays (epochDay ms)
  pad4chars c.1.toNat ++ '-' :: pad2chars c.2.1 ++ '-' :: pad2chars c.2.2

/-- `ApiKeyManager.getTodayString` at an instant, on a server whose local
zone is `tzOffsetMin` minutes east of UTC.  `toISOString` ignores the
zone, so the result depends only on `nowMs`. -/
def getTodayString (nowMs : Int) (tzOffsetMin : Int) : List Char :=
  isoDatePart nowMs

/-- The `YYYY-MM-DD` rendering of the *local* calendar date at the same
instant: the local civil date is the UTC civil date of the instant
shifted by the zone offset. -/
def localDatePart (nowMs : Int) (tzOffsetMin : Int) : List Char :=
  isoDatePart (nowMs + tzOffsetMin * 60000)

/-- Every character of the string is a decimal digit. -/
def allDigits (s : List Char) : Prop := ∀ c ∈ s, c.isDigit = true

/-! ### WeatherService: stats, fetch pipeline, getWeatherData

The response body type is abstract (`α`): the proxy treats upstream JSON
as opaque.  One upstream HTTP request is one consumption of the oracle
`http : Nat → CallResult α` at the next call index; the oracle abstracts
`this.httpClient.get(url)`, which either resolves (2xx) or throws an
axios error carrying `error.response` (non-2xx) or only `error.request`
(transport failure).  Sleeps and upstream-call counts are returned as an
observable trace. -/

/-- Result of one upstream HTTP request. -/
inductive CallResult (α : Type) where
  | ok (body : α)
  | http (status : Nat) (data : α)
  | net (msg : List Char)
deriving DecidableEq

/-- A JS error value as inspected by the route handler: an axios error
with `error.response` (status, data), an axios error with only
`error.request`, or a plain `Error(message)`. -/
inductive FetchError (α : Type) where
  | http (status : Nat) (data : α)
  | network (msg : List Char)
  | app (msg : List Char)
deriving DecidableEq

/-- The message of the error thrown when `getAllAvailableKeys` returns
an empty list. -/
def noKeysMsg : List Char := "所有API密钥都已达到使用限制或错误次数限制".toList

instance {ε α : Type} [DecidableEq ε] [DecidableEq α] : DecidableEq (Except ε α) :=
  fun x y =>
    match x, y with
    | .ok a, .ok b =>
      if h : a = b then isTrue (h ▸ rfl) else isFalse (fun he => h (Except.ok.inj he))
    | .error a, .error b =>
      if h : a = b then isTrue (h ▸ rfl) else isFalse (fun he => h (Except.error.inj he))
    | .ok _, .error _ => isFalse (fun he => Except.noConfusion he)
    | .error _, .ok _ => isFalse (fun he => Except.noConfusion he)

/-- `this.stats` of WeatherService.  `minResponseTime` starts at
`Infinity`, modelled as `none`. -/
structure Stats where
  totalRequests : Nat
  cacheHits : Nat
  cacheWrites : Nat
  apiCalls : Nat
  errors : Nat
  responseTimeSum : Nat
  maxResponseTime : Nat
  minResponseTime : Option Nat
deriving DecidableEq, Repr

/-- `WeatherService.updateResponseTime` with the measured duration. -/
def updateResponseTime (st : Stats) (rt : Nat) : Stats :=
  { st with
    responseTimeSum := st.responseTimeSum + rt,
    maxResponseTime := max st.maxResponseTime rt,
    minResponseTime := some (match st.minResponseTime with
      | none => rt
      | some m => min m rt) }

/-- The per-process mutable state of WeatherService relevant to one
request: telemetry, the result cache (fingerprint → body) and the shared
ledger. -/
structure ServiceState (α : Type) where
  stats : Stats
  cache : List Char → Option α
  ledger : Ledger

/-- Static configuration of the service. -/
structure ServiceConfig where
  cacheEnabled : Bool
  dailyLimit : Nat
  keys : List KeyInfo
  retryCount : Nat
  retryDelay : Nat

/-- The inner credential loop of `fetchWeatherFromAPI`: try each
available key in order; on 2xx record usage, bump `apiCalls`, write the
cache (when enabled) and succeed; on failure record the error on that
key, remember it as `lastError`, and move to the next key.  Returns
`(body?, state, next call index, lastError)`. -/
def tryKeys (cfg : ServiceConfig) (http : Nat → CallResult α) (cacheKey : List Char) :
    List AvailableKey → ServiceState α → Nat → Option (FetchError α) →
      Option α × ServiceState α × Nat × Option (FetchError α)
  | [], st, n, lastErr => (none, st, n, lastErr)
  | k :: rest, st, n, lastErr =>
    match http n with
    | .ok b =>
      let st1 : ServiceState α :=
        { st with ledger := recordUsage st.ledger k.id,
                  stats := { st.stats with apiCalls := st.stats.apiCalls + 1 } }
      let st2 : ServiceState α :=
        if cfg.cacheEnabled then
          { st1 with cache := fun j => if j = cacheKey then some b else st1.cache j,
                     stats := { st1.stats with cacheWrites := st1.stats.cacheWrites + 1 } }
        else st1
      (some b, st2, n + 1, lastErr)
    | .http s d =>
      tryKeys cfg http cacheKey rest
        { st with ledger := recordError st.ledger k.id } (n + 1) (some (.http s d))
    | .net m =>
      tryKeys cfg http cacheKey rest
        { st with ledger := recordError st.ledger k.id } (n + 1) (some (.network m))

/-- The retry loop of `fetchWeatherFromAPI`.  `remaining` counts the
attempts still allowed (initially `retryCount`), `attempt` is the
1-based attempt index.  When the selector returns no keys, the thrown
error becomes the new `lastError`.  Between a failed attempt and the
next one, the pipeline sleeps `retryDelay × attempt` (recorded in the
sleep trace).  The final throw re-raises `lastError`, which is still
`null` (`none`) only if no attempt ever ran. -/
def fetchAttempts (cfg : ServiceConfig) (http : Nat → CallResult α) (cacheKey : List Char) :
    Nat → Nat → ServiceState α → Nat → Option (FetchError α) →
      Except (Option (FetchError α)) α × ServiceState α × Nat × List Nat
  | 0, _, st, n, lastErr => (.error lastErr, st, n, [])
  | remaining + 1, attempt, st, n, lastErr =>
    let avail := getAllAvailableKeys cfg.dailyLimit cfg.keys st.ledger
    match avail with
    | [] =>
      if remaining = 0 then (.error (some (.app noKeysMsg)), st, n, [])
      else
        let r := fetchAttempts cfg http cacheKey remaining (attempt + 1) st n
          (some (.app noKeysMsg))
        (r.1, r.2.1, r.2.2.1, cfg.retryDelay * attempt :: r.2.2.2)
    | k :: rest =>
      match tryKeys cfg http cacheKey (k :: rest) st n lastErr with
      | (some b, st', n', _) => (.ok b, st', n', [])
      | (none, st', n', lastErr') =>
        if remaining = 0 then (.error lastErr', st', n', [])
        else
          let r := fetchAttempts cfg http cacheKey remaining (attempt + 1) st' n' lastErr'
          (r.1, r.2.1, r.2.2.1, cfg.retryDelay * attempt :: r.2.2.2)

/-- `WeatherService.fetchWeatherFromAPI`. -/
def fetchWeatherFromAPI (cfg : ServiceConfig) (http : Nat → CallResult α)
    (cacheKey : List Char) (st : ServiceState α) :
    Except (Option (FetchError α)) α × ServiceState α × Nat × List Nat :=
  fetchAttempts cfg http cacheKey cfg.retryCount 1 st 0 none

/-- Observable result of one sequential `getWeatherData` call: outcome,
final state, number of upstream HTTP requests issued, whether a
pending-request entry was registered, and the sleep trace. -/
structure GetResult (α : Type) where
  result : Except (Option (FetchError α)) α
  state : ServiceState α
  upstreamCalls : Nat
  pendingCreated : Bool
  sleeps : List Nat

/-- `WeatherService.getWeatherData`, sequential semantics (a single
caller; the coalescing map under concurrency is modelled separately).
`elapsed` is the measured `Date.now() - startTime` duration used by
`updateResponseTime`. -/
def getWeatherData (cfg : ServiceConfig) (http : Nat → CallResult α)
    (params : WeatherParams) (st : ServiceState α) (elapsed : Nat) : GetResult α :=
  let st0 : ServiceState α :=
    { st with stats := { st.stats with totalRequests := st.stats.totalRequests + 1 } }
  let cacheKey := generateCacheKey params
  let cached := if cfg.cacheEnabled then st0.cache cacheKey else none
  match cached with
  | some d =>
    let stats1 : Stats := { st0.stats with cacheHits := st0.stats.cacheHits + 1 }
    { result := .ok d,
      state := { st0 with stats := updateResponseTime stats1 elapsed },
      upstreamCalls := 0, pendingCreated := false, sleeps := [] }
  | none =>
    let r := fetchWeatherFromAPI cfg http cacheKey st0
    match r.1 with
    | .ok b =>
      { result := .ok b,
        state := { r.2.1 with stats := updateResponseTime r.2.1.stats elapsed },
        upstreamCalls := r.2.2.1, pendingCreated := true, sleeps := r.2.2.2 }
    | .error e =>
      let stats1 : Stats := { r.2.1.stats with errors := r.2.1.stats.errors + 1 }
      { result := .error e,
        state := { r.2.1 with stats := updateResponseTime stats1 elapsed },
        upstreamCalls := r.2.2.1, pendingCreated := true, sleeps := r.2.2.2 }

/-! ### Concrete service fixtures for witnesses -/

def demoCfg : ServiceConfig := ⟨true, 1000, demoKeys, 3, 1000⟩

def demoStats : Stats := ⟨0, 0, 0, 0, 0, 0, 0, none⟩

def zeroLedger : Ledger := ⟨fun _ => 0, fun _ => 0⟩

def demoState : ServiceState Nat := ⟨demoStats, fun _ => none, zeroLedger⟩

/-- An upstream that always answers 2xx with body `42`. -/
def okOracle : Nat → CallResult Nat := fun _ => .ok 42

/-- An upstream that always fails at the transport level. -/
def failOracle : Nat → CallResult Nat := fun _ => .net "connect ECONNREFUSED".toList

/-- Ledger in which both demo credentials are error-blocked. -/
def blockedLedger : Ledger := ⟨fun _ => 0, fun _ => 3⟩

def blockedState : ServiceState Nat := ⟨demoStats, fun _ => none, blockedLedger⟩

/-- Demo state whose cache already holds body `42` for `sampleParamsA`. -/
def cachedState : ServiceState Nat :=
  ⟨demoStats, fun k => if k = generateCacheKey sampleParamsA then some 42 else none,
    zeroLedger⟩

/-! ### The `/onecall` route handler (part\_005)

The handler destructures `const { appid, ...weatherParams } =
request.query`, compares `appid` with `process.env.APP_ID_KEY` (a
missing or empty configured key is falsy and yields 500; a mismatch
yields 401) and passes the remaining parameters to `getWeatherData`.
The catch block classifies a thrown error: an axios error with
`error.response` propagates the upstream status and body verbatim; an
axios error with only `error.request` maps to 503; a plain error whose
message contains `限制` or `quota` maps to 429; anything else to 500.
The JSON error payload is `{success, error, timestamp, requestId,
responseTime}` — the route's 429 response schema declares a `retryAfter`
property, but the handler never sets one. -/

/-- `s.startsWith pat` on character lists. -/
def startsWithChars : List Char → List Char → Bool
  | [], _ => true
  | _ :: _, [] => false
  | p :: ps, c :: cs => p == c && startsWithChars ps cs

/-- JS `String.prototype.includes`: substring occurrence. -/
def hasSub (pat : List Char) : List Char → Bool
  | [] => startsWithChars pat []
  | c :: cs => startsWithChars pat (c :: cs) || hasSub pat cs

/-- The raw query of a `/onecall` request after validation, before the
handler strips `appid`. -/
structure Query where
  lat : List Char
  lon : List Char
  appid : List Char
  exclude : Option (List Char)
  units : Option (List Char)
  lang : Option (List Char)
deriving DecidableEq, Repr

/-- `const { appid, ...weatherParams } = request.query`. -/
def stripAppid (q : Query) : WeatherParams :=
  ⟨q.lat, q.lon, q.exclude, q.units, q.lang⟩

/-- The error payload sent by the catch block (for non-upstream-HTTP
errors).  `retryAfter` is declared in the 429 response schema but never
populated by the handler. -/
structure ErrorPayload where
  success : Bool
  error : List Char
  timestamp : List Char
  requestId : List Char
  responseTime : Nat
  retryAfter : Option Nat
deriving DecidableEq, Repr

/-- Body of an error response: the upstream body verbatim (for HTTP
errors) or the wrapped JSON payload. -/
inductive ErrorBody (α : Type) where
  | upstream (data : α)
  | wrapped (p : ErrorPayload)
deriving DecidableEq

/-- The catch block of the `/onecall` handler: status code and body for
a thrown error. -/
def handleWeatherError {α : Type} (e : FetchError α)
    (ts reqId : List Char) (rt : Nat) : Nat × ErrorBody α :=
  match e with
  | .http s d => (s, .upstream d)
  | .network m => (503, .wrapped ⟨false, m, ts, reqId, rt, none⟩)
  | .app m =>
    ((if hasSub "限制".toList m || hasSub "quota".toList m then 429 else 500),
      .wrapped ⟨false, m, ts, reqId, rt, none⟩)

/-- Outcome of the `/onecall` handler before error serialization. -/
inductive HandlerOutcome (α : Type) where
  | serverError (status : Nat)
  | unauthorized (status : Nat)
  | proceed (r : GetResult α)

/-- The `/onecall` handler: `appid` is compared against the configured
`APP_ID_KEY` (absent or empty → 500, mismatch → 401) and then stripped;
only the remaining parameters reach `getWeatherData`. -/
def onecallHandler {α : Type} (cfg : ServiceConfig) (http : Nat → CallResult α)
    (appIdKey : Option (List Char)) (q : Query) (st : ServiceState α)
    (elapsed : Nat) : HandlerOutcome α :=
  match appIdKey with
  | none => .serverError 500
  | some k =>
    if k = [] then .serverError 500
    else if q.appid ≠ k then .unauthorized 401
    else .proceed (getWeatherData cfg http (stripAppid q) st elapsed)

/-- `WeatherService.buildApiUrl`: the ordered query pairs appended to
`https://api.openweathermap.org/data/3.0/onecall` by `URLSearchParams`
(percent-encoding elided; values are opaque here).  The only `appid`
appended is the selected credential's secret. -/
def buildApiUrl (p : WeatherParams) (apiKey : List Char) :
    List (List Char × List Char) :=
  [("lat".toList, p.lat), ("lon".toList, p.lon), ("appid".toList, apiKey)]
    ++ (match p.exclude with | none => [] | some e => [("exclude".toList, e)])
    ++ (match p.units with | none => [] | some u => [("units".toList, u)])
    ++ (match p.lang with | none => [] | some l => [("lang".toList, l)])

/-! ### In-flight coalescing under concurrency (C1)

Node runs `getWeatherData` callers as interleaved tasks on one event
loop: code between two `await`s is atomic.  In `getWeatherData` the
whole miss-path block — cache lookup, `pendingRequests.has`, creation of
the `fetchWeatherFromAPI` promise and `pendingRequests.set` — contains no
`await`, so an arrival is one atomic step.  A fetch runs from creation
until its promise settles; when it settles it has already performed its
cache write (when the cache is enabled).  The owner resumes after the
promise settles and deletes the map entry in its `finally`; waiters that
awaited the same promise resume with the same settled outcome, in any
order relative to the owner.  States below are per process. -/

/-- A coalescing-model task: a `getWeatherData` caller. -/
inductive TaskState (α : Type) where
  | arrive (fp : List Char)
  | waiter (fp : List Char) (f : Nat)
  | owner (fp : List Char) (f : Nat)
  | finished (fp : List Char) (src : Option Nat) (o : Except (Option (FetchError α)) α)

/-- Status of one `fetchWeatherFromAPI` promise. -/
inductive FetchStatus (α : Type) where
  | running
  | completed (o : Except (Option (FetchError α)) α)

/-- Per-process coalescing state: the `pendingRequests` map, the fetches
ever started (indexed by creation order), the caller tasks, and the
result cache. -/
structure CoState (α : Type) where
  cacheEnabled : Bool
  pending : List Char → Option Nat
  fetches : List (List Char × FetchStatus α)
  tasks : List (TaskState α)
  cache : List Char → Option α

/-- Fetch `f` for fingerprint `fp` is in flight. -/
def runningAt {α : Type} (s : CoState α) (fp : List Char) (f : Nat) : Prop :=
  s.fetches[f]? = some (fp, .running)

/-- Interleaving semantics of `getWeatherData` around the
`pendingRequests` map. -/
inductive CoStep {α : Type} : CoState α → CoState α → Prop where
  /-- Cache hit: the caller returns the cached body at once. -/
  | arriveHit (s : CoState α) (i : Nat) (fp : List Char) (b : α)
      (ht : s.tasks[i]? = some (.arrive fp))
      (hen : s.cacheEnabled = true)
      (hc : s.cache fp = some b) :
      CoStep s { s with tasks := s.tasks.set i (.finished fp none (.ok b)) }
  /-- Cache miss with an existing pending entry: await that promise. -/
  | arriveWait (s : CoState α) (i : Nat) (fp : List Char) (f : Nat)
      (ht : s.tasks[i]? = some (.arrive fp))
      (hc : s.cacheEnabled = true → s.cache fp = none)
      (hp : s.pending fp = some f) :
      CoStep s { s with tasks := s.tasks.set i (.waiter fp f) }
  /-- Cache miss, no pending entry: create the fetch promise and
  register it. -/
  | arriveStart (s : CoState α) (i : Nat) (fp : List Char)
      (ht : s.tasks[i]? = some (.arrive fp))
      (hc : s.cacheEnabled = true → s.cache fp = none)
      (hp : s.pending fp = none) :
      CoStep s { s with
        tasks := s.tasks.set i (.owner fp s.fetches.length),
        fetches := s.fetches ++ [(fp, .running)],
        pending := fun j => if j = fp then some s.fetches.length else s.pending j }
  /-- A running fetch settles with outcome `o`, having written the cache
  on success (when enabled). -/
  | fetchDone (s : CoState α) (f : Nat) (fp : List Char)
      (o : Except (Option (FetchError α)) α)
      (hf : s.fetches[f]? = some (fp, .running)) :
      CoStep s { s with
        fetches := s.fetches.set f (fp, .completed o),
        cache := fun j => match o with
          | .ok b => if s.cacheEnabled ∧ j = fp then some b else s.cache j
          | .error _ => s.cache j }
  /-- The owner resumes after its promise settled: it takes the outcome
  and deletes the pending entry (`finally`). -/
  | ownerResume (s : CoState α) (i : Nat) (fp fp' : List Char) (f : Nat)
      (o : Except (Option (FetchError α)) α)
      (ht : s.tasks[i]? = some (.owner fp f))
      (hf : s.fetches[f]? = some (fp', .completed o)) :
      CoStep s { s with
        tasks := s.tasks.set i (.finished fp (some f) o),
        pending := fun j => if j = fp then none else s.pending j }
  /-- A waiter resumes after the promise it awaits settled, with the
  same outcome. -/
  | waiterResume (s : CoState α) (i : Nat) (fp fp' : List Char) (f : Nat)
      (o : Except (Option (FetchError α)) α)
      (ht : s.tasks[i]? = some (.waiter fp f))
      (hf : s.fetches[f]? = some (fp', .completed o)) :
      CoStep s { s with tasks := s.tasks.set i (.finished fp (some f) o) }

/-- Initial per-process state: empty pending map, no fetches yet, all
callers about to arrive. -/
def InitState {α : Type} (s : CoState α) : Prop :=
  (∀ fp, s.pending fp = none) ∧ s.fetches = []
    ∧ (∀ t ∈ s.tasks, ∃ fp, t = TaskState.arrive fp)

inductive Reachable {α : Type} : CoState α → Prop where
  | base (s : CoState α) (h : InitState s) : Reachable s
  | step (s s' : CoState α) (h : Reachable s) (hs : CoStep s s') : Reachable s'

/-- The inductive invariant of the coalescing machine. -/
def Inv {α : Type} (s : CoState α) : Prop :=
  (∀ (f : Nat) (fp : List Char), runningAt s fp f → s.pending fp = some f)
  ∧ (∀ (fp : List Char) (f : Nat), s.pending fp = some f →
      ∃ st, s.fetches[f]? = some (fp, st))
  ∧ (∀ (i f : Nat) (fp : List Char),
      s.tasks[i]? = some (TaskState.owner fp f) → s.pending fp = some f)
  ∧ (∀ (i f : Nat) (fp : List Char),
      s.tasks[i]? = some (TaskState.waiter fp f) →
      ∃ st, s.fetches[f]? = some (fp, st))
  ∧ (∀ (i f : Nat) (fp : List Char) (o : Except (Option (FetchError α)) α),
      s.tasks[i]? = some (TaskState.finished fp (some f) o) →
      s.fetches[f]? = some (fp, FetchStatus.completed o))
  ∧ (∀ (i j f : Nat) (fp fp' : List Char),
      s.tasks[i]? = some (TaskState.owner fp f) →
      s.tasks[j]? = some (TaskState.owner fp' f) → i = j)

/-- A one-task, one-fingerprint initial state used as a concrete
reachable witness. -/
def demoCoState : CoState Nat :=
  ⟨true, fun _ => none, [], [.arrive (generateCacheKey sampleParamsA)], fun _ => none⟩

/-! ### Colon-freeness of validated values -/

lemma colonFree_nil : colonFree [] := by simp [colonFree]

lemma colonFree_of_numeric {s : List Char} (h : numericLit s) : colonFree s := by
  intro hmem
  rcases h.2 _ hmem with h' | h' | h' <;> simp [Char.isDigit] at h'

lemma colonFree_joinComma {parts : List (List Char)}
    (h : ∀ w ∈ parts, colonFree w) : colonFree (joinComma parts) := by
  induction parts with
  | nil => exact colonFree_nil
  | cons w ws ih =>
    cases ws with
    | nil => exact h w (by simp)
    | cons w' ws' =>
      intro hmem
      simp only [joinComma, List.mem_append, List.mem_cons] at hmem
      rcases hmem with hmem | hmem | hmem
      · exact h w (by simp) hmem
      · exact absurd hmem (by decide)
      · exact ih (fun v hv => h v (List.mem_cons_of_mem _ hv)) hmem

lemma colonFree_of_excludeValid {e : List Char} (h : excludeValid e) : colonFree e := by
  obtain ⟨parts, -, hw, rfl⟩ := h
  refine colonFree_joinComma (fun w hwmem => ?_)
  have := hw w hwmem
  revert this
  unfold excludeWords colonFree
  intro hmem
  fin_cases hmem <;> decide

lemma colonFree_of_unitsValid {u : List Char} (h : unitsValid u) : colonFree u := by
  unfold unitsValid at h
  fin_cases h <;> decide

/-! ### Cancellation lemmas for colon-delimited concatenation -/

/-- A fingerprint tail: empty, or starting with the `:` delimiter. -/
def tailShape (t : List Char) : Prop := t = [] ∨ ∃ r, t = ':' :: r

lemma colonFree_append_colon_inj :
    ∀ {a b r s : List Char}, colonFree a → colonFree b →
      a ++ ':' :: r = b ++ ':' :: s → a = b ∧ r = s := by
  intro a
  induction a with
  | nil =>
    intro b r s _ hb h
    cases b with
    | nil => simpa using h
    | cons c b' =>
      simp only [List.nil_append, List.cons_append, List.cons.injEq] at h
      exact absurd (h.1 ▸ List.mem_cons_self c b') hb
  | cons c a' ih =>
    intro b r s ha hb h
    cases b with
    | nil =>
      simp only [List.cons_append, List.nil_append, List.cons.injEq] at h
      exact absurd (h.1 ▸ List.mem_cons_self c a') ha
    | cons d b' =>
      simp only [List.cons_append, List.cons.injEq] at h
      have ha' : colonFree a' := fun hm => ha (List.mem_cons_of_mem _ hm)
      have hb' : colonFree b' := fun hm => hb (List.mem_cons_of_mem _ hm)
      obtain ⟨hab, hrs⟩ := ih ha' hb' h.2
      exact ⟨by rw [h.1, hab], hrs⟩

lemma colonFree_append_tailShape_inj :
    ∀ {a b t u : List Char}, colonFree a → colonFree b →
      tailShape t → tailShape u → a ++ t = b ++ u → a = b ∧ t = u := by
  intro a
  induction a with
  | nil =>
    intro b t u _ hb ht hu h
    cases b with
    | nil => simpa using h
    | cons d b' =>
      rcases ht with rfl | ⟨r, rfl⟩
      · exact absurd (congrArg List.length h) (by simp)
      · simp only [List.nil_append, List.cons_append, List.cons.injEq] at h
        exact absurd (h.1 ▸ List.mem_cons_self d b') hb
  | cons c a' ih =>
    intro b t u ha hb ht hu h
    cases b with
    | nil =>
      rcases hu with rfl | ⟨r, rfl⟩
      · exact absurd (congrArg List.length h) (by simp)
      · simp only [List.cons_append, List.nil_append, List.cons.injEq] at h
        exact absurd (h.1 ▸ List.mem_cons_self c a') ha
    | cons d b' =>
      simp only [List.cons_append, List.cons.injEq] at h
      have ha' : colonFree a' := fun hm => ha (List.mem_cons_of_mem _ hm)
      have hb' : colonFree b' := fun hm => hb (List.mem_cons_of_mem _ hm)
      obtain ⟨hab, htu⟩ := ih ha' hb' ht hu h.2
      exact ⟨by rw [h.1, hab], htu⟩

lemma tailShape_optPart (tag : List Char) (v : Option (List Char)) :
    tailShape (optPart tag v) := by
  cases v with
  | none => exact Or.inl rfl
  | some w => exact Or.inr ⟨tag ++ ':' :: w, rfl⟩

lemma tailShape_append {t u : List Char} (ht : tailShape t) (hu : tailShape u) :
    tailShape (t ++ u) := by
  rcases ht with rfl | ⟨r, rfl⟩
  · simpa using hu
  · exact Or.inr ⟨r ++ u, by simp⟩

lemma excludeTag_chars : "exclude".toList = 'e' :: 'x' :: 'c' :: 'l' :: 'u' :: 'd' :: 'e' :: [] := rfl

lemma unitsTag_chars : "units".toList = 'u' :: 'n' :: 'i' :: 't' :: 's' :: [] := rfl

lemma langTag_chars : "lang".toList = 'l' :: 'a' :: 'n' :: 'g' :: [] := rfl

/-- The `units`/`lang` tail never begins with the `exclude` tag. -/
lemma tail_not_exclude_headed (u l : Option (List Char)) (rest : List Char) :
    optPart "units".toList u ++ optPart "lang".toList l ≠
      ':' :: ("exclude".toList ++ ':' :: rest) := by
  cases u <;> cases l <;>
    simp [optPart, excludeTag_chars, unitsTag_chars, langTag_chars]

/-- The `lang` tail never begins with the `units` tag. -/
lemma tail_not_units_headed (l : Option (List Char)) (rest : List Char) :
    optPart "lang".toList l ≠ ':' :: ("units".toList ++ ':' :: rest) := by
  cases l <;> simp [optPart, unitsTag_chars, langTag_chars]

lemma optPart_lang_inj {l1 l2 : Option (List Char)}
    (h : optPart "lang".toList l1 = optPart "lang".toList l2) : l1 = l2 := by
  cases l1 <;> cases l2 <;> simp_all [optPart]

lemma optPart_units_lang_inj {u1 u2 l1 l2 : Option (List Char)}
    (hu1 : ∀ v ∈ u1, colonFree v) (hu2 : ∀ v ∈ u2, colonFree v)
    (h : optPart "units".toList u1 ++ optPart "lang".toList l1 =
         optPart "units".toList u2 ++ optPart "lang".toList l2) :
    u1 = u2 ∧ l1 = l2 := by
  cases u1 with
  | none =>
    cases u2 with
    | none => exact ⟨rfl, optPart_lang_inj (by simpa [optPart] using h)⟩
    | some w2 =>
      exfalso
      refine tail_not_units_headed l1 (w2 ++ optPart "lang".toList l2) ?_
      simpa [optPart] using h
  | some w1 =>
    cases u2 with
    | none =>
      exfalso
      refine tail_not_units_headed l2 (w1 ++ optPart "lang".toList l1) ?_
      simpa [optPart] using h.symm
    | some w2 =>
      simp only [optPart, List.cons_append, List.cons.injEq, List.append_assoc] at h
      have h2 := List.append_cancel_left h.2
      simp only [List.cons.injEq, true_and] at h2
      obtain ⟨hw, hl⟩ := colonFree_append_tailShape_inj
        (hu1 w1 rfl) (hu2 w2 rfl) (tailShape_optPart _ l1) (tailShape_optPart _ l2) h2
      exact ⟨by rw [hw], optPart_lang_inj hl⟩

lemma optPart_tail_inj {e1 e2 u1 u2 l1 l2 : Option (List Char)}
    (he1 : ∀ v ∈ e1, colonFree v) (he2 : ∀ v ∈ e2, colonFree v)
    (hu1 : ∀ v ∈ u1, colonFree v) (hu2 : ∀ v ∈ u2, colonFree v)
    (h : optPart "exclude".toList e1 ++ optPart "units".toList u1 ++ optPart "lang".toList l1 =
         optPart "exclude".toList e2 ++ optPart "units".toList u2 ++ optPart "lang".toList l2) :
    e1 = e2 ∧ u1 = u2 ∧ l1 = l2 := by
  cases e1 with
  | none =>
    cases e2 with
    | none =>
      obtain ⟨h1, h2⟩ := optPart_units_lang_inj hu1 hu2 (by simpa [optPart] using h)
      exact ⟨rfl, h1, h2⟩
    | some w2 =>
      exfalso
      refine tail_not_exclude_headed u1 l1
        (w2 ++ (optPart "units".toList u2 ++ optPart "lang".toList l2)) ?_
      simpa [optPart, List.append_assoc] using h
  | some w1 =>
    cases e2 with
    | none =>
      exfalso
      refine tail_not_exclude_headed u2 l2
        (w1 ++ (optPart "units".toList u1 ++ optPart "lang".toList l1)) ?_
      simpa [optPart, List.append_assoc] using h.symm
    | some w2 =>
      simp only [optPart, List.cons_append, List.cons.injEq, List.append_assoc] at h
      have h2 := List.append_cancel_left h.2
      simp only [List.cons.injEq, true_and] at h2
      obtain ⟨hw, hrest⟩ := colonFree_append_tailShape_inj
        (he1 w1 rfl) (he2 w2 rfl)
        (tailShape_append (tailShape_optPart _ u1) (tailShape_optPart _ l1))
        (tailShape_append (tailShape_optPart _ u2) (tailShape_optPart _ l2)) h2
      obtain ⟨hu, hl⟩ := optPart_units_lang_inj hu1 hu2 hrest
      exact ⟨by rw [hw], hu, hl⟩

/-- Injectivity of `generateCacheKey` on the validated parameter domain. -/
lemma generateCacheKey_inj {p1 p2 : WeatherParams}
    (h1 : validParams p1) (h2 : validParams p2)
    (h : generateCacheKey p1 = generateCacheKey p2) : p1 = p2 := by
  obtain ⟨hlat1, hlon1, he1, hu1, -⟩ := h1
  obtain ⟨hlat2, hlon2, he2, hu2, -⟩ := h2
  unfold generateCacheKey at h
  simp only [List.append_assoc] at h
  have h' := List.append_cancel_left h
  have hstep1 := colonFree_append_colon_inj
    (colonFree_of_numeric hlat1) (colonFree_of_numeric hlat2)
    (a := p1.lat) (b := p2.lat)
    (r := 'l' :: 'o' :: 'n' :: ':' ::
      (p1.lon ++ (optPart "exclude".toList p1.exclude ++
        (optPart "units".toList p1.units ++ optPart "lang".toList p1.lang))))
    (s := 'l' :: 'o' :: 'n' :: ':' ::
      (p2.lon ++ (optPart "exclude".toList p2.exclude ++
        (optPart "units".toList p2.units ++ optPart "lang".toList p2.lang))))
    h'
  obtain ⟨hlat, hrest⟩ := hstep1
  simp only [List.cons.injEq, true_and] at hrest
  have hstep2 := colonFree_append_tailShape_inj
    (colonFree_of_numeric hlon1) (colonFree_of_numeric hlon2)
    (tailShape_append (tailShape_optPart _ p1.exclude)
      (tailShape_append (tailShape_optPart _ p1.units) (tailShape_optPart _ p1.lang)))
    (tailShape_append (tailShape_optPart _ p2.exclude)
      (tailShape_append (tailShape_optPart _ p2.units) (tailShape_optPart _ p2.lang)))
    hrest
  obtain ⟨hlon, htail⟩ := hstep2
  have htail' : optPart "exclude".toList p1.exclude ++ optPart "units".toList p1.units
      ++ optPart "lang".toList p1.lang
      = optPart "exclude".toList p2.exclude ++ optPart "units".toList p2.units
      ++ optPart "lang".toList p2.lang := by
    simpa [List.append_assoc] using htail
  obtain ⟨hex, hun, hla⟩ := optPart_tail_inj
    (fun v hv => colonFree_of_excludeValid (he1 v hv))
    (fun v hv => colonFree_of_excludeValid (he2 v hv))
    (fun v hv => colonFree_of_unitsValid (hu1 v hv))
    (fun v hv => colonFree_of_unitsValid (hu2 v hv)) htail'
  cases p1; cases p2
  simp_all

lemma sampleParamsA_valid : validParams sampleParamsA := by
  refine ⟨by decide, by decide, ?_, by decide, by decide⟩
  intro e he
  simp only [sampleParamsA, Option.mem_def, Option.some.injEq] at he
  exact ⟨["daily".toList], by simp, by decide, by rw [← he]; rfl⟩

lemma sampleParamsB_valid : validParams sampleParamsB := by
  refine ⟨by decide, by decide, ?_, by decide, by decide⟩
  intro e he
  simp only [sampleParamsB, Option.mem_def, Option.some.injEq] at he
  exact ⟨["daily".toList], by simp, by decide, by rw [← he]; rfl⟩

/-- C8: `generateCacheKey` is deterministic — two parameter sets agreeing on
`lat`, `lon`, `exclude`, `units` and `lang` yield equal fingerprints — and
injective on validated parameter sets: two validated parameter sets that
differ in at least one of those five parameters yield different
fingerprints. -/
theorem generateCacheKey_deterministic_and_injective :
    (∀ p1 p2 : WeatherParams,
      p1.lat = p2.lat → p1.lon = p2.lon → p1.exclude = p2.exclude →
      p1.units = p2.units → p1.lang = p2.lang →
      generateCacheKey p1 = generateCacheKey p2)
    ∧ (∀ p1 p2 : WeatherParams, validParams p1 → validParams p2 →
      p1 ≠ p2 → generateCacheKey p1 ≠ generateCacheKey p2) := by
  constructor
  · intro p1 p2 h1 h2 h3 h4 h5
    cases p1; cases p2
    simp_all [generateCacheKey]
  · intro p1 p2 hv1 hv2 hne hk
    exact hne (generateCacheKey_inj hv1 hv2 hk)

/-- Witness for C8 at concrete inputs: `sampleParamsA` and `sampleParamsB`
are validated parameter sets differing only in `units`, and their
fingerprints differ. -/
theorem generateCacheKey_deterministic_and_injective_witness :
    generateCacheKey sampleParamsA = generateCacheKey sampleParamsA
    ∧ generateCacheKey sampleParamsA ≠ generateCacheKey sampleParamsB :=
  ⟨generateCacheKey_deterministic_and_injective.1 sampleParamsA sampleParamsA
      rfl rfl rfl rfl rfl,
    generateCacheKey_deterministic_and_injective.2 sampleParamsA sampleParamsB
      sampleParamsA_valid sampleParamsB_valid (by decide)⟩

/-! ### Selector: membership, exclusion persistence, ordering -/

instance : IsTotal AvailableKey keyOrder := by
  constructor
  intro a b
  rcases lt_trichotomy a.priority b.priority with h | h | h
  · exact Or.inl (Or.inl h)
  · rcases le_total a.currentUsage b.currentUsage with h' | h'
    · exact Or.inl (Or.inr ⟨h, h'⟩)
    · exact Or.inr (Or.inr ⟨h.symm, h'⟩)
  · exact Or.inr (Or.inl h)

instance : IsTrans AvailableKey keyOrder := by
  constructor
  intro a b c hab hbc
  rcases hab with hab | ⟨hab, hab'⟩ <;> rcases hbc with hbc | ⟨hbc, hbc'⟩
  · exact Or.inl (hab.trans hbc)
  · exact Or.inl (hbc ▸ hab)
  · exact Or.inl (hab ▸ hbc)
  · exact Or.inr ⟨hab.trans hbc, hab'.trans hbc'⟩

lemma mem_getAllAvailableKeys_iff {dl : Nat} {keys : List KeyInfo} {st : Ledger}
    {a : AvailableKey} :
    a ∈ getAllAvailableKeys dl keys st
      ↔ ∃ k ∈ keys, selectable dl st k ∧ a = ⟨k, st.usage k.id, st.errors k.id⟩ := by
  unfold getAllAvailableKeys
  rw [(List.perm_insertionSort keyOrder _).mem_iff, List.mem_filterMap]
  constructor
  · rintro ⟨k, hk, hsome⟩
    by_cases hsel : st.usage k.id < dl ∧ st.errors k.id < 3
    · rw [if_pos hsel] at hsome
      exact ⟨k, hk, hsel, (Option.some.injEq _ _ ▸ hsome).symm⟩
    · rw [if_neg hsel] at hsome
      exact absurd hsome (by simp)
  · rintro ⟨k, hk, hsel, rfl⟩
    exact ⟨k, hk, if_pos hsel⟩

lemma usage_le_applyOp (st : Ledger) (op : LedgerOp) (i : String) :
    st.usage i ≤ (applyOp st op).usage i := by
  cases op with
  | use j => simp only [applyOp, recordUsage]; split <;> omega
  | err j => exact le_rfl

lemma errors_le_applyOp (st : Ledger) (op : LedgerOp) (i : String) :
    st.errors i ≤ (applyOp st op).errors i := by
  cases op with
  | use j => exact le_rfl
  | err j => simp only [applyOp, recordError]; split <;> omega

lemma usage_le_foldl (ops : List LedgerOp) (st : Ledger) (i : String) :
    st.usage i ≤ (ops.foldl applyOp st).usage i := by
  induction ops generalizing st with
  | nil => exact le_rfl
  | cons op ops ih =>
    exact (usage_le_applyOp st op i).trans (ih (applyOp st op))

lemma errors_le_foldl (ops : List LedgerOp) (st : Ledger) (i : String) :
    st.errors i ≤ (ops.foldl applyOp st).errors i := by
  induction ops generalizing st with
  | nil => exact le_rfl
  | cons op ops ih =>
    exact (errors_le_applyOp st op i).trans (ih (applyOp st op))

/-- C3: a configured credential appears in the list returned by
`getAllAvailableKeys` iff its usage counter is below the daily limit and
its error counter is below 3; and once either bound is reached, no
sequence of further ledger increments within the same DayKey can make it
selectable again. -/
theorem getAllAvailableKeys_mem_iff_selectable (dl : Nat) (keys : List KeyInfo)
    (st : Ledger) :
    (∀ k ∈ keys,
      ((∃ a ∈ getAllAvailableKeys dl keys st, a.toKeyInfo = k)
        ↔ (st.usage k.id < dl ∧ st.errors k.id < 3)))
    ∧ (∀ k : KeyInfo, ¬ selectable dl st k →
        ∀ ops : List LedgerOp, ¬ selectable dl (ops.foldl applyOp st) k) := by
  constructor
  · intro k hk
    constructor
    · rintro ⟨a, ha, rfl⟩
      obtain ⟨k', -, hsel, rfl⟩ := mem_getAllAvailableKeys_iff.mp ha
      exact hsel
    · intro hsel
      exact ⟨⟨k, st.usage k.id, st.errors k.id⟩,
        mem_getAllAvailableKeys_iff.mpr ⟨k, hk, hsel, rfl⟩, rfl⟩
  · intro k hblocked ops hsel
    refine hblocked ⟨?_, ?_⟩
    · exact lt_of_le_of_lt (usage_le_foldl ops st k.id) hsel.1
    · exact lt_of_le_of_lt (errors_le_foldl ops st k.id) hsel.2

/-- Witness for C3: with `key_1` error-blocked at 3 errors, `key_1` is
absent from the selection, and it stays unselectable after one more
recorded usage. -/
theorem getAllAvailableKeys_mem_iff_selectable_witness :
    (¬ ∃ a ∈ getAllAvailableKeys 1000 demoKeys demoLedgerErr, a.toKeyInfo = demoKey1)
    ∧ ¬ selectable 1000 ([LedgerOp.use "key_1"].foldl applyOp demoLedgerErr) demoKey1 := by
  constructor
  · intro h
    have := ((getAllAvailableKeys_mem_iff_selectable 1000 demoKeys demoLedgerErr).1
      demoKey1 (by decide)).mp h
    revert this
    decide
  · exact (getAllAvailableKeys_mem_iff_selectable 1000 demoKeys demoLedgerErr).2
      demoKey1 (by decide) [LedgerOp.use "key_1"]

/-- C4 counterexample: with `key_1` at usage 5 (priority 0) and `key_2` at
usage 0 (priority 1), the code returns `key_1` first — the list is sorted
by priority first, not by current usage ascending as the claim states. -/
theorem getAllAvailableKeys_not_usage_sorted :
    ((getAllAvailableKeys 1000 demoKeys demoLedgerUsage).map
        fun a => (a.id, a.currentUsage)) = [("key_1", 5), ("key_2", 0)]
    ∧ ¬ List.Sorted specKeyOrder (getAllAvailableKeys 1000 demoKeys demoLedgerUsage) := by
  constructor
  · decide
  · decide

/-- C4 (amended): the list returned by `getAllAvailableKeys` and iterated
by the fetch pipeline is sorted by priority ascending, with current usage
ascending as the tie-break (deterministic, no randomization). -/
theorem getAllAvailableKeys_sorted_priority_first (dl : Nat) (keys : List KeyInfo)
    (st : Ledger) :
    List.Sorted keyOrder (getAllAvailableKeys dl keys st) :=
  List.sorted_insertionSort keyOrder _

/-! ### DayKey theorems -/

lemma fmod_toNat_lt (z' : Int) : (z' - (Int.fdiv z' 146097) * 146097).toNat < 146097 := by
  have h1 : z' - (Int.fdiv z' 146097) * 146097 = Int.fmod z' 146097 := by
    rw [Int.fmod_def]; ring
  have h2 : Int.fmod z' 146097 < 146097 := Int.fmod_lt_of_pos z' (by norm_num)
  omega

lemma civil_month_day_bounds (z : Int) :
    1 ≤ (civilFromDays z).2.1 ∧ (civilFromDays z).2.1 ≤ 12
    ∧ 1 ≤ (civilFromDays z).2.2 ∧ (civilFromDays z).2.2 ≤ 31 := by
  have hdoe := fmod_toNat_lt (z + 719468)
  simp only [civilFromDays]
  generalize ((z + 719468) - (Int.fdiv (z + 719468) 146097) * 146097).toNat = doe at *
  split <;> omega

lemma digitChar_isDigit {d : Nat} (h : d < 10) : (digitChar d).isDigit = true := by
  interval_cases d <;> decide

lemma allDigits_pad2chars (n : Nat) : allDigits (pad2chars n) := by
  intro c hc
  simp only [pad2chars, List.mem_cons, List.not_mem_nil, or_false] at hc
  rcases hc with rfl | rfl <;> exact digitChar_isDigit (Nat.mod_lt _ (by omega))

lemma allDigits_pad4chars (n : Nat) : allDigits (pad4chars n) := by
  intro c hc
  simp only [pad4chars, List.mem_cons, List.not_mem_nil, or_false] at hc
  rcases hc with rfl | rfl | rfl | rfl <;>
    exact digitChar_isDigit (Nat.mod_lt _ (by omega))

/-- C5 counterexample: at epoch instant 85,000,000 ms
(1970-01-01T23:36:40Z) on a server one hour east of UTC — whose local
calendar date is already 1970-01-02 — `getTodayString` returns the UTC
date `1970-01-01`, not the local calendar date. -/
theorem getTodayString_not_local_date :
    getTodayString 85000000 60 = "1970-01-01".toList
    ∧ localDatePart 85000000 60 = "1970-01-02".toList
    ∧ getTodayString 85000000 60 ≠ localDatePart 85000000 60 :=
  ⟨by decide, by decide, by decide⟩

/-- C5 (amended): the DayKey produced by `getTodayString` is the calendar
date of the instant in UTC, formatted `YYYY-MM-DD`; it is independent of
the server's zone offset, is constant within a UTC day, and rolls over at
UTC midnight (not local midnight). -/
theorem getTodayString_utc_date :
    (∀ ms tz1 tz2 : Int, getTodayString ms tz1 = getTodayString ms tz2)
    ∧ (∀ ms1 ms2 tz1 tz2 : Int, epochDay ms1 = epochDay ms2 →
        getTodayString ms1 tz1 = getTodayString ms2 tz2)
    ∧ (∀ tz : Int, getTodayString (86400000 - 1) tz ≠ getTodayString 86400000 tz)
    ∧ (∀ ms tz : Int,
        (∃ ys mos ds : List Char,
          getTodayString ms tz = ys ++ '-' :: mos ++ '-' :: ds
          ∧ ys.length = 4 ∧ mos.length = 2 ∧ ds.length = 2
          ∧ allDigits ys ∧ allDigits mos ∧ allDigits ds)
        ∧ 1 ≤ (civilFromDays (epochDay ms)).2.1
        ∧ (civilFromDays (epochDay ms)).2.1 ≤ 12
        ∧ 1 ≤ (civilFromDays (epochDay ms)).2.2
        ∧ (civilFromDays (epochDay ms)).2.2 ≤ 31) := by
  refine ⟨fun ms tz1 tz2 => rfl, ?_, ?_, ?_⟩
  · intro ms1 ms2 tz1 tz2 h
    simp only [getTodayString, isoDatePart, h]
  · intro tz
    simp only [getTodayString]
    decide
  · intro ms tz
    refine ⟨⟨pad4chars (civilFromDays (epochDay ms)).1.toNat,
      pad2chars (civilFromDays (epochDay ms)).2.1,
      pad2chars (civilFromDays (epochDay ms)).2.2,
      rfl, rfl, rfl, rfl,
      allDigits_pad4chars _, allDigits_pad2chars _, allDigits_pad2chars _⟩,
      civil_month_day_bounds (epochDay ms)⟩

/-- Witness for C5 (amended) at a concrete instant: two instants of the
same UTC day yield the same DayKey on servers in different zones. -/
theorem getTodayString_utc_date_witness :
    getTodayString 85000000 60 = getTodayString 1000 (-480) :=
  getTodayString_utc_date.2.1 85000000 1000 60 (-480) (by decide)

/-! ### Fetch pipeline: usage accounting (C2) -/

lemma tryKeys_success {α : Type} {cfg : ServiceConfig} {http : Nat → CallResult α}
    {ck : List Char} :
    ∀ {l : List AvailableKey} {st : ServiceState α} {n : Nat}
      {le : Option (FetchError α)} {b : α} {st' : ServiceState α} {n' : Nat}
      {le' : Option (FetchError α)},
      tryKeys cfg http ck l st n le = (some b, st', n', le') →
      ∃ kId, st'.ledger.usage kId = st.ledger.usage kId + 1
        ∧ (∀ j, j ≠ kId → st'.ledger.usage j = st.ledger.usage j)
        ∧ n < n' ∧ http (n' - 1) = .ok b
        ∧ (∀ m, n ≤ m → m + 1 < n' → ∀ b' : α, http m ≠ .ok b') := by
  intro l
  induction l with
  | nil => intro st n le b st' n' le' h; simp [tryKeys] at h
  | cons k rest ih =>
    intro st n le b st' n' le' h
    cases hh : http n with
    | ok b0 =>
      simp only [tryKeys, hh, Prod.mk.injEq, Option.some.injEq] at h
      obtain ⟨rfl, hst, rfl, -⟩ := h
      subst hst
      refine ⟨k.id, ?_, ?_, by omega, by simpa using hh, ?_⟩
      · split <;> simp [recordUsage]
      · intro j hj
        split <;> simp [recordUsage, hj]
      · intro m hm1 hm2
        exact absurd hm2 (by omega)
    | http s d =>
      simp only [tryKeys, hh] at h
      obtain ⟨kId, h1, h2, h3, h4, h5⟩ := ih h
      refine ⟨kId, ?_, ?_, by omega, h4, ?_⟩
      · simpa [recordError] using h1
      · intro j hj
        have := h2 j hj
        simpa [recordError] using this
      · intro m hm1 hm2 b' hb'
        rcases Nat.eq_or_lt_of_le hm1 with rfl | hlt
        · rw [hb'] at hh; cases hh
        · exact h5 m hlt hm2 b' hb'
    | net msg =>
      simp only [tryKeys, hh] at h
      obtain ⟨kId, h1, h2, h3, h4, h5⟩ := ih h
      refine ⟨kId, ?_, ?_, by omega, h4, ?_⟩
      · simpa [recordError] using h1
      · intro j hj
        have := h2 j hj
        simpa [recordError] using this
      · intro m hm1 hm2 b' hb'
        rcases Nat.eq_or_lt_of_le hm1 with rfl | hlt
        · rw [hb'] at hh; cases hh
        · exact h5 m hlt hm2 b' hb'

lemma tryKeys_failure {α : Type} {cfg : ServiceConfig} {http : Nat → CallResult α}
    {ck : List Char} :
    ∀ {l : List AvailableKey} {st : ServiceState α} {n : Nat}
      {le : Option (FetchError α)} {st' : ServiceState α} {n' : Nat}
      {le' : Option (FetchError α)},
      tryKeys cfg http ck l st n le = (none, st', n', le') →
      (∀ j, st'.ledger.usage j = st.ledger.usage j)
      ∧ n ≤ n'
      ∧ (∀ m, n ≤ m → m < n' → ∀ b' : α, http m ≠ .ok b') := by
  intro l
  induction l with
  | nil =>
    intro st n le st' n' le' h
    simp only [tryKeys, Prod.mk.injEq] at h
    obtain ⟨-, rfl, rfl, -⟩ := h
    exact ⟨fun j => rfl, le_rfl, fun m hm1 hm2 => absurd hm2 (by omega)⟩
  | cons k rest ih =>
    intro st n le st' n' le' h
    cases hh : http n with
    | ok b0 => simp [tryKeys, hh] at h
    | http s d =>
      simp only [tryKeys, hh] at h
      obtain ⟨h1, h2, h3⟩ := ih h
      refine ⟨fun j => by simpa [recordError] using h1 j, by omega, ?_⟩
      intro m hm1 hm2 b' hb'
      rcases Nat.eq_or_lt_of_le hm1 with rfl | hlt
      · rw [hb'] at hh; cases hh
      · exact h3 m hlt hm2 b' hb'
    | net msg =>
      simp only [tryKeys, hh] at h
      obtain ⟨h1, h2, h3⟩ := ih h
      refine ⟨fun j => by simpa [recordError] using h1 j, by omega, ?_⟩
      intro m hm1 hm2 b' hb'
      rcases Nat.eq_or_lt_of_le hm1 with rfl | hlt
      · rw [hb'] at hh; cases hh
      · exact h3 m hlt hm2 b' hb'

lemma fetchAttempts_success {α : Type} {cfg : ServiceConfig} {http : Nat → CallResult α}
    {ck : List Char} :
    ∀ {remaining attempt : Nat} {st : ServiceState α} {n : Nat}
      {le : Option (FetchError α)} {b : α} {st' : ServiceState α} {n' : Nat}
      {sl : List Nat},
      fetchAttempts cfg http ck remaining attempt st n le = (.ok b, st', n', sl) →
      ∃ kId, st'.ledger.usage kId = st.ledger.usage kId + 1
        ∧ (∀ j, j ≠ kId → st'.ledger.usage j = st.ledger.usage j)
        ∧ n < n' ∧ http (n' - 1) = .ok b
        ∧ (∀ m, n ≤ m → m + 1 < n' → ∀ b' : α, http m ≠ .ok b') := by
  intro remaining
  induction remaining with
  | zero => intro attempt st n le b st' n' sl h; simp [fetchAttempts] at h
  | succ rem ih =>
    intro attempt st n le b st' n' sl h
    rw [fetchAttempts] at h
    cases hava : getAllAvailableKeys cfg.dailyLimit cfg.keys st.ledger with
    | nil =>
      rw [hava] at h
      simp only at h
      by_cases hrem : rem = 0
      · rw [if_pos hrem] at h
        simp at h
      · rw [if_neg hrem] at h
        simp only [Prod.mk.injEq] at h
        obtain ⟨h1, h2, h3, -⟩ := h
        have hrec :
            fetchAttempts cfg http ck rem (attempt + 1) st n (some (.app noKeysMsg))
              = (.ok b, st', n', (fetchAttempts cfg http ck rem (attempt + 1) st n
                  (some (.app noKeysMsg))).2.2.2) := by
          rw [← h1, ← h2, ← h3]
        exact ih hrec
    | cons k rest =>
      rw [hava] at h
      simp only at h
      cases htk : tryKeys cfg http ck (k :: rest) st n le with
      | mk ob rest2 =>
        obtain ⟨st1, n1, le1⟩ := rest2
        rw [htk] at h
        cases ob with
        | some b0 =>
          simp only [Prod.mk.injEq, Except.ok.injEq] at h
          obtain ⟨rfl, rfl, rfl, -⟩ := h
          exact tryKeys_success htk
        | none =>
          simp only at h
          by_cases hrem : rem = 0
          · rw [if_pos hrem] at h
            simp at h
          · rw [if_neg hrem] at h
            simp only [Prod.mk.injEq] at h
            obtain ⟨h1, h2, h3, -⟩ := h
            obtain ⟨hu, hn, hfail⟩ := tryKeys_failure htk
            have hrec :
                fetchAttempts cfg http ck rem (attempt + 1) st1 n1 le1
                  = (.ok b, st', n', (fetchAttempts cfg http ck rem (attempt + 1)
                      st1 n1 le1).2.2.2) := by
              rw [← h1, ← h2, ← h3]
            obtain ⟨kId, g1, g2, g3, g4, g5⟩ := ih hrec
            refine ⟨kId, ?_, ?_, by omega, g4, ?_⟩
            · rw [g1, hu kId]
            · intro j hj
              rw [g2 j hj, hu j]
            · intro m hm1 hm2 b' hb'
              by_cases hmn : m < n1
              · exact hfail m hm1 hmn b' hb'
              · exact g5 m (by omega) hm2 b' hb'

/-- C2: when `getWeatherData` goes to upstream (cache miss) and returns a
2xx body, the usage counter of the credential that served the request is
incremented exactly once — and the increment is part of the state in
effect when the body is returned; no other credential's usage changes,
the returning upstream call is the single successful one, and every
earlier upstream call in the run was a failure. -/
theorem usage_recorded_once_on_success {α : Type} (cfg : ServiceConfig)
    (http : Nat → CallResult α) (p : WeatherParams) (st : ServiceState α)
    (elapsed : Nat) (b : α)
    (hmiss : (getWeatherData cfg http p st elapsed).pendingCreated = true)
    (hok : (getWeatherData cfg http p st elapsed).result = .ok b) :
    ∃ kId,
      (getWeatherData cfg http p st elapsed).state.ledger.usage kId
          = st.ledger.usage kId + 1
      ∧ (∀ j, j ≠ kId →
          (getWeatherData cfg http p st elapsed).state.ledger.usage j
            = st.ledger.usage j)
      ∧ 1 ≤ (getWeatherData cfg http p st elapsed).upstreamCalls
      ∧ http ((getWeatherData cfg http p st elapsed).upstreamCalls - 1) = .ok b
      ∧ (∀ m, m + 1 < (getWeatherData cfg http p st elapsed).upstreamCalls →
          ∀ b' : α, http m ≠ .ok b') := by
  revert hmiss hok
  simp only [getWeatherData]
  split
  · intro hmiss hok
    simp at hmiss
  · split
    · rename_i b0 heq
      intro hmiss hok
      simp only [Except.ok.injEq] at hok
      subst hok
      have hr : fetchWeatherFromAPI cfg http (generateCacheKey p)
          { st with stats := { st.stats with totalRequests := st.stats.totalRequests + 1 } }
          = (.ok b0,
            (fetchWeatherFromAPI cfg http (generateCacheKey p)
              { st with stats := { st.stats with totalRequests := st.stats.totalRequests + 1 } }).2.1,
            (fetchWeatherFromAPI cfg http (generateCacheKey p)
              { st with stats := { st.stats with totalRequests := st.stats.totalRequests + 1 } }).2.2.1,
            (fetchWeatherFromAPI cfg http (generateCacheKey p)
              { st with stats := { st.stats with totalRequests := st.stats.totalRequests + 1 } }).2.2.2) := by
        rw [← heq]
      obtain ⟨kId, h1, h2, h3, h4, h5⟩ := fetchAttempts_success hr
      refine ⟨kId, h1, h2, h3, ?_, ?_⟩
      · simpa using h4
      · intro m hm b' hb'
        exact h5 m (Nat.zero_le m) (by simpa using hm) b' hb'
    · intro hmiss hok
      simp at hok

/-- Witness for C2: one credential, an always-2xx upstream, an empty
cache; the call succeeds and charges one usage. -/
theorem usage_recorded_once_on_success_witness :
    ∃ kId,
      (getWeatherData demoCfg okOracle sampleParamsA demoState 5).state.ledger.usage kId
          = demoState.ledger.usage kId + 1
      ∧ (∀ j, j ≠ kId →
          (getWeatherData demoCfg okOracle sampleParamsA demoState 5).state.ledger.usage j
            = demoState.ledger.usage j)
      ∧ 1 ≤ (getWeatherData demoCfg okOracle sampleParamsA demoState 5).upstreamCalls
      ∧ okOracle ((getWeatherData demoCfg okOracle sampleParamsA demoState 5).upstreamCalls - 1)
          = .ok 42
      ∧ (∀ m, m + 1 < (getWeatherData demoCfg okOracle sampleParamsA demoState 5).upstreamCalls →
          ∀ b' : Nat, okOracle m ≠ .ok b') :=
  usage_recorded_once_on_success demoCfg okOracle sampleParamsA demoState 5 42
    (by decide) (by decide)

/-! ### Fetch pipeline: retry backoff trace (C7) -/

lemma fetchAttempts_sleeps {α : Type} {cfg : ServiceConfig} {http : Nat → CallResult α}
    {ck : List Char} :
    ∀ (remaining attempt : Nat) (st : ServiceState α) (n : Nat)
      (le : Option (FetchError α)),
      ((fetchAttempts cfg http ck remaining attempt st n le).2.2.2
        = (List.range' attempt
            (fetchAttempts cfg http ck remaining attempt st n le).2.2.2.length).map
              (fun a => cfg.retryDelay * a))
      ∧ (fetchAttempts cfg http ck remaining attempt st n le).2.2.2.length ≤ remaining - 1
      ∧ (∀ e, (fetchAttempts cfg http ck remaining attempt st n le).1 = .error e →
          (fetchAttempts cfg http ck remaining attempt st n le).2.2.2.length
            = remaining - 1) := by
  intro remaining
  induction remaining with
  | zero =>
    intro attempt st n le
    simp [fetchAttempts]
  | succ rem ih =>
    intro attempt st n le
    rw [fetchAttempts]
    cases hava : getAllAvailableKeys cfg.dailyLimit cfg.keys st.ledger with
    | nil =>
      simp only
      by_cases hrem : rem = 0
      · rw [if_pos hrem]
        subst hrem
        simp
      · rw [if_neg hrem]
        obtain ⟨ih1, ih2, ih3⟩ := ih (attempt + 1) st n (some (.app noKeysMsg))
        simp only [List.length_cons]
        refine ⟨?_, by omega, ?_⟩
        · rw [List.range'_succ, List.map_cons]
          exact congrArg _ ih1
        · intro e he
          have := ih3 e he
          omega
    | cons k rest =>
      simp only
      cases htk : tryKeys cfg http ck (k :: rest) st n le with
      | mk ob rest2 =>
        obtain ⟨st1, n1, le1⟩ := rest2
        cases ob with
        | some b0 => simp
        | none =>
          simp only
          by_cases hrem : rem = 0
          · rw [if_pos hrem]
            subst hrem
            simp
          · rw [if_neg hrem]
            obtain ⟨ih1, ih2, ih3⟩ := ih (attempt + 1) st1 n1 le1
            simp only [List.length_cons]
            refine ⟨?_, by omega, ?_⟩
            · rw [List.range'_succ, List.map_cons]
              exact congrArg _ ih1
            · intro e he
              have := ih3 e he
              omega

/-- C7: the fetch pipeline sleeps linearly in the attempt index: the
sleep trace of a run is `[RetryDelay*1, RetryDelay*2, ...]` (the i-th
recorded sleep is exactly `RetryDelay × i`), a non-final failed attempt
is always followed by such a sleep — on a fully failing run all
`RetryCount - 1` sleeps occur — and the successful attempt sleeps no
further. -/
theorem fetch_linear_backoff {α : Type} (cfg : ServiceConfig)
    (http : Nat → CallResult α) (ck : List Char) (st : ServiceState α) :
    ((fetchWeatherFromAPI cfg http ck st).2.2.2
      = (List.range' 1 (fetchWeatherFromAPI cfg http ck st).2.2.2.length).map
          (fun a => cfg.retryDelay * a))
    ∧ (fetchWeatherFromAPI cfg http ck st).2.2.2.length ≤ cfg.retryCount - 1
    ∧ (∀ e, (fetchWeatherFromAPI cfg http ck st).1 = .error e →
        (fetchWeatherFromAPI cfg http ck st).2.2.2.length = cfg.retryCount - 1) :=
  fetchAttempts_sleeps cfg.retryCount 1 st 0 none

/-- Witness for C7: with one always-failing upstream and
`RetryCount = 3`, `RetryDelay = 1000`, the run fails after sleeping
exactly `[1000, 2000]`. -/
theorem fetch_linear_backoff_witness :
    (fetchWeatherFromAPI demoCfg failOracle [] demoState).2.2.2
      = (List.range' 1
          (fetchWeatherFromAPI demoCfg failOracle [] demoState).2.2.2.length).map
            (fun a => demoCfg.retryDelay * a)
    ∧ (fetchWeatherFromAPI demoCfg failOracle [] demoState).2.2.2.length
        = demoCfg.retryCount - 1
    ∧ (fetchWeatherFromAPI demoCfg failOracle [] demoState).2.2.2 = [1000, 2000] :=
  ⟨(fetch_linear_backoff demoCfg failOracle [] demoState).1,
    (fetch_linear_backoff demoCfg failOracle [] demoState).2.2
      (some (.network "connect ECONNREFUSED".toList)) (by decide),
    by decide⟩

/-! ### Cache-hit frame condition (C9) -/

/-- C9: when the cache is enabled and holds a (non-expired) entry for the
request fingerprint, `getWeatherData` returns the cached body and leaves
the ledger, the cache and the pending-request machinery untouched: no
usage or error counter changes, no upstream request is issued, no
pending-request entry is created, no sleep happens, and of the telemetry
only the total-request counter, the cache-hit counter and the
response-time reservoir change. -/
theorem cache_hit_frame {α : Type} (cfg : ServiceConfig) (http : Nat → CallResult α)
    (p : WeatherParams) (st : ServiceState α) (elapsed : Nat) (d : α)
    (hen : cfg.cacheEnabled = true)
    (hhit : st.cache (generateCacheKey p) = some d) :
    (getWeatherData cfg http p st elapsed).result = .ok d
    ∧ (getWeatherData cfg http p st elapsed).state.ledger = st.ledger
    ∧ (getWeatherData cfg http p st elapsed).state.cache = st.cache
    ∧ (getWeatherData cfg http p st elapsed).upstreamCalls = 0
    ∧ (getWeatherData cfg http p st elapsed).pendingCreated = false
    ∧ (getWeatherData cfg http p st elapsed).sleeps = []
    ∧ (getWeatherData cfg http p st elapsed).state.stats.totalRequests
        = st.stats.totalRequests + 1
    ∧ (getWeatherData cfg http p st elapsed).state.stats.cacheHits
        = st.stats.cacheHits + 1
    ∧ (getWeatherData cfg http p st elapsed).state.stats.cacheWrites
        = st.stats.cacheWrites
    ∧ (getWeatherData cfg http p st elapsed).state.stats.apiCalls
        = st.stats.apiCalls
    ∧ (getWeatherData cfg http p st elapsed).state.stats.errors
        = st.stats.errors := by
  simp [getWeatherData, hen, hhit, updateResponseTime]

/-- Witness for C9: a concrete cache-hit run returns the cached body `42`
with untouched ledger. -/
theorem cache_hit_frame_witness :
    (getWeatherData demoCfg okOracle sampleParamsA cachedState 5).result = .ok 42
    ∧ (getWeatherData demoCfg okOracle sampleParamsA cachedState 5).state.ledger
        = cachedState.ledger
    ∧ (getWeatherData demoCfg okOracle sampleParamsA cachedState 5).state.cache
        = cachedState.cache
    ∧ (getWeatherData demoCfg okOracle sampleParamsA cachedState 5).upstreamCalls = 0
    ∧ (getWeatherData demoCfg okOracle sampleParamsA cachedState 5).pendingCreated = false
    ∧ (getWeatherData demoCfg okOracle sampleParamsA cachedState 5).sleeps = []
    ∧ (getWeatherData demoCfg okOracle sampleParamsA cachedState 5).state.stats.totalRequests
        = cachedState.stats.totalRequests + 1
    ∧ (getWeatherData demoCfg okOracle sampleParamsA cachedState 5).state.stats.cacheHits
        = cachedState.stats.cacheHits + 1
    ∧ (getWeatherData demoCfg okOracle sampleParamsA cachedState 5).state.stats.cacheWrites
        = cachedState.stats.cacheWrites
    ∧ (getWeatherData demoCfg okOracle sampleParamsA cachedState 5).state.stats.apiCalls
        = cachedState.stats.apiCalls
    ∧ (getWeatherData demoCfg okOracle sampleParamsA cachedState 5).state.stats.errors
        = cachedState.stats.errors :=
  cache_hit_frame demoCfg okOracle sampleParamsA cachedState 5 42 rfl (by decide)

/-! ### NoCredentialsAvailable handling (C6) -/

lemma fetchAttempts_no_keys {α : Type} (cfg : ServiceConfig) (http : Nat → CallResult α)
    (ck : List Char) (st : ServiceState α)
    (hempty : getAllAvailableKeys cfg.dailyLimit cfg.keys st.ledger = []) :
    ∀ (remaining : Nat), 1 ≤ remaining → ∀ (attempt n : Nat) (le : Option (FetchError α)),
      fetchAttempts cfg http ck remaining attempt st n le
        = (.error (some (.app noKeysMsg)), st, n,
            (List.range' attempt (remaining - 1)).map (fun a => cfg.retryDelay * a)) := by
  intro remaining
  induction remaining with
  | zero => intro h; omega
  | succ rem ih =>
    intro _ attempt n le
    rw [fetchAttempts, hempty]
    simp only
    by_cases hrem : rem = 0
    · rw [if_pos hrem]
      subst hrem
      simp
    · rw [if_neg hrem]
      rw [ih (by omega) (attempt + 1) n (some (.app noKeysMsg))]
      have hsplit : List.range' attempt (rem + 1 - 1)
          = attempt :: List.range' (attempt + 1) (rem - 1) := by
        rw [Nat.add_sub_cancel]
        conv_lhs => rw [show rem = (rem - 1) + 1 from by omega]
        exact List.range'_succ attempt (rem - 1) 1
      rw [hsplit, List.map_cons]

/-- C6 counterexample: with every credential error-blocked, the pipeline
fails with the quota-exhausted error and the handler answers 429 — but
the error payload's `retryAfter` field is `none`: no retry-after hint
(let alone one pointing at the next local midnight) is sent. -/
theorem no_credentials_429_counterexample :
    (fetchWeatherFromAPI demoCfg okOracle [] blockedState).1
      = .error (some (.app noKeysMsg))
    ∧ (handleWeatherError (α := Nat) (.app noKeysMsg)
        "2026-01-01T00:00:00.000Z".toList "req-1".toList 7).1 = 429
    ∧ (handleWeatherError (α := Nat) (.app noKeysMsg)
        "2026-01-01T00:00:00.000Z".toList "req-1".toList 7).2
      = .wrapped ⟨false, noKeysMsg, "2026-01-01T00:00:00.000Z".toList,
          "req-1".toList, 7, none⟩ := by
  refine ⟨?_, by decide, by decide⟩
  have h := fetchAttempts_no_keys demoCfg okOracle [] blockedState
    (by decide) 3 (by omega) 1 0 none
  rw [fetchWeatherFromAPI]
  rw [show demoCfg.retryCount = 3 from rfl, h]

/-- C6 (amended): when the selector finds no available credential, the
request fails after all retry attempts with the quota-exhausted error,
the handler classifies it as HTTP 429, the ledger is untouched and no
upstream call is made — but the error response carries no retry-after
value (the 429 response schema declares `retryAfter`, the handler never
sets it). -/
theorem no_credentials_429_no_retry_hint {α : Type} (cfg : ServiceConfig)
    (http : Nat → CallResult α) (ck : List Char) (st : ServiceState α)
    (ts reqId : List Char) (rt : Nat)
    (hempty : getAllAvailableKeys cfg.dailyLimit cfg.keys st.ledger = [])
    (hrc : 1 ≤ cfg.retryCount) :
    (fetchWeatherFromAPI cfg http ck st).1 = .error (some (.app noKeysMsg))
    ∧ (fetchWeatherFromAPI cfg http ck st).2.1 = st
    ∧ (fetchWeatherFromAPI cfg http ck st).2.2.1 = 0
    ∧ (handleWeatherError (α := α) (.app noKeysMsg) ts reqId rt).1 = 429
    ∧ (handleWeatherError (α := α) (.app noKeysMsg) ts reqId rt).2
        = .wrapped ⟨false, noKeysMsg, ts, reqId, rt, none⟩ := by
  have h := fetchAttempts_no_keys cfg http ck st hempty cfg.retryCount hrc 1 0 none
  rw [fetchWeatherFromAPI, h]
  refine ⟨rfl, rfl, rfl, ?_, ?_⟩
  · simp only [handleWeatherError]
    rw [if_pos]
    rw [show hasSub "限制".toList noKeysMsg = true from by decide]
    simp
  · rfl

/-- Witness for C6 (amended), on the concrete blocked state. -/
theorem no_credentials_429_no_retry_hint_witness :
    (fetchWeatherFromAPI demoCfg okOracle [] blockedState).1
      = .error (some (.app noKeysMsg))
    ∧ (fetchWeatherFromAPI demoCfg okOracle [] blockedState).2.1 = blockedState
    ∧ (fetchWeatherFromAPI demoCfg okOracle [] blockedState).2.2.1 = 0
    ∧ (handleWeatherError (α := Nat) (.app noKeysMsg) [] [] 0).1 = 429
    ∧ (handleWeatherError (α := Nat) (.app noKeysMsg) [] [] 0).2
        = .wrapped ⟨false, noKeysMsg, [], [], 0, none⟩ :=
  no_credentials_429_no_retry_hint demoCfg okOracle [] blockedState [] [] 0
    (by decide) (by decide)

/-! ### appid non-interference (C10) -/

/-- C10: the client-supplied `appid` influences only the auth equality
check.  It is stripped before the parameters reach `getWeatherData`, so
two queries agreeing on the five weather parameters strip to the same
parameter set (hence the same fingerprint and upstream URL) regardless
of `appid`; a mismatching `appid` yields 401 and an authorized request
proceeds on the stripped parameters; and in the upstream URL the only
`appid` pair carries the selected credential's secret. -/
theorem appid_only_gates_auth {α : Type} (cfg : ServiceConfig)
    (http : Nat → CallResult α) (st : ServiceState α) (elapsed : Nat) :
    (∀ q1 q2 : Query, q1.lat = q2.lat → q1.lon = q2.lon →
      q1.exclude = q2.exclude → q1.units = q2.units → q1.lang = q2.lang →
      stripAppid q1 = stripAppid q2
        ∧ generateCacheKey (stripAppid q1) = generateCacheKey (stripAppid q2)
        ∧ ∀ key, buildApiUrl (stripAppid q1) key = buildApiUrl (stripAppid q2) key)
    ∧ (∀ (k : List Char) (q : Query), k ≠ [] → q.appid ≠ k →
        onecallHandler cfg http (some k) q st elapsed = .unauthorized 401)
    ∧ (∀ (k : List Char) (q : Query), k ≠ [] → q.appid = k →
        onecallHandler cfg http (some k) q st elapsed
          = .proceed (getWeatherData cfg http (stripAppid q) st elapsed))
    ∧ (∀ (p : WeatherParams) (key : List Char) nv, nv ∈ buildApiUrl p key →
        nv.1 = "appid".toList → nv.2 = key) := by
  refine ⟨?_, ?_, ?_, ?_⟩
  · intro q1 q2 h1 h2 h3 h4 h5
    obtain ⟨l1, o1, a1, e1, u1, g1⟩ := q1
    obtain ⟨l2, o2, a2, e2, u2, g2⟩ := q2
    simp only [stripAppid] at *
    subst h1; subst h2; subst h3; subst h4; subst h5
    exact ⟨rfl, rfl, fun key => rfl⟩
  · intro k q hk hne
    simp [onecallHandler, hk, hne]
  · intro k q hk heq
    simp [onecallHandler, hk, heq]
  · intro p key nv hmem hname
    obtain ⟨lat, lon, ex, un, la⟩ := p
    cases ex <;> cases un <;> cases la <;>
      (simp only [buildApiUrl, List.cons_append, List.nil_append,
        List.append_nil] at hmem;
       fin_cases hmem <;>
         first
           | rfl
           | (dsimp only at hname; exact absurd hname (by decide)))

/-- Witness for C10 at concrete queries: two queries differing only in
`appid` strip identically; a wrong `appid` is rejected with 401; in a
concrete upstream URL the `appid` pair is the credential secret. -/
theorem appid_only_gates_auth_witness :
    stripAppid ⟨"1".toList, "2".toList, "good".toList, none, none, none⟩
        = stripAppid ⟨"1".toList, "2".toList, "evil".toList, none, none, none⟩
    ∧ onecallHandler demoCfg okOracle (some "good".toList)
        ⟨"1".toList, "2".toList, "evil".toList, none, none, none⟩ demoState 5
        = .unauthorized 401
    ∧ (("appid".toList, "secretA".toList) : List Char × List Char).2 = "secretA".toList :=
  ⟨((appid_only_gates_auth demoCfg okOracle demoState 5).1
      ⟨"1".toList, "2".toList, "good".toList, none, none, none⟩
      ⟨"1".toList, "2".toList, "evil".toList, none, none, none⟩
      rfl rfl rfl rfl rfl).1,
    (appid_only_gates_auth demoCfg okOracle demoState 5).2.1 "good".toList
      ⟨"1".toList, "2".toList, "evil".toList, none, none, none⟩
      (by decide) (by decide),
    (appid_only_gates_auth demoCfg okOracle demoState 5).2.2.2
      ⟨"1".toList, "2".toList, none, none, none⟩ "secretA".toList
      ("appid".toList, "secretA".toList) (by decide) rfl⟩

/-! ### Coalescing invariant (C1) -/

lemma lt_of_getElem? {β : Type} {l : List β} {j : Nat} {v : β}
    (h : l[j]? = some v) : j < l.length :=
  (List.getElem?_eq_some.mp h).1

lemma set_getElem?_cases {β : Type} {l : List β} {i j : Nat} {t v : β}
    (h : (l.set i t)[j]? = some v) :
    (j = i ∧ v = t) ∨ (j ≠ i ∧ l[j]? = some v) := by
  by_cases hij : j = i
  · subst hij
    by_cases hlen : j < l.length
    · rw [List.getElem?_set_self hlen] at h
      exact Or.inl ⟨rfl, (Option.some.injEq _ _ ▸ h).symm⟩
    · have hnone : (l.set j t)[j]? = none :=
        List.getElem?_eq_none (by rw [List.length_set]; omega)
      rw [hnone] at h
      cases h
  · refine Or.inr ⟨hij, ?_⟩
    rwa [List.getElem?_set_ne (fun hh => hij hh.symm)] at h

lemma append_getElem?_cases {β : Type} {l : List β} {x : β} {j : Nat} {v : β}
    (h : (l ++ [x])[j]? = some v) :
    (j < l.length ∧ l[j]? = some v) ∨ (j = l.length ∧ v = x) := by
  by_cases hj : j < l.length
  · exact Or.inl ⟨hj, by rwa [List.getElem?_append_left hj] at h⟩
  · by_cases hj2 : j = l.length
    · subst hj2
      rw [List.getElem?_concat_length] at h
      exact Or.inr ⟨rfl, (Option.some.injEq _ _ ▸ h).symm⟩
    · have hnone : (l ++ [x])[j]? = none := by
        apply List.getElem?_eq_none
        simp only [List.length_append, List.length_cons, List.length_nil]
        omega
      rw [hnone] at h
      cases h

lemma getElem?_mem' {β : Type} {l : List β} {j : Nat} {v : β}
    (h : l[j]? = some v) : v ∈ l := by
  obtain ⟨hlt, hv⟩ := List.getElem?_eq_some.mp h
  exact hv ▸ l.getElem_mem hlt

lemma inv_init {α : Type} {s : CoState α} (h : InitState s) : Inv s := by
  obtain ⟨hp, hf, ht⟩ := h
  refine ⟨?_, ?_, ?_, ?_, ?_, ?_⟩
  · intro f fp hrun
    rw [runningAt, hf] at hrun
    simp at hrun
  · intro fp f hpend
    rw [hp fp] at hpend
    cases hpend
  · intro i f fp htask
    obtain ⟨fp0, heq⟩ := ht _ (getElem?_mem' htask)
    cases heq
  · intro i f fp htask
    obtain ⟨fp0, heq⟩ := ht _ (getElem?_mem' htask)
    cases heq
  · intro i f fp o htask
    obtain ⟨fp0, heq⟩ := ht _ (getElem?_mem' htask)
    cases heq
  · intro i j f fp fp' hti htj
    obtain ⟨fp0, heq⟩ := ht _ (getElem?_mem' hti)
    cases heq

lemma inv_step {α : Type} {s s' : CoState α} (hinv : Inv s) (hs : CoStep s s') :
    Inv s' := by
  obtain ⟨inv1, inv2, inv3, inv4, inv5, inv6⟩ := hinv
  cases hs with
  | arriveHit i fp b ht hen hc =>
    refine ⟨inv1, inv2, ?_, ?_, ?_, ?_⟩
    · intro j f0 fp0 htask
      rcases set_getElem?_cases htask with ⟨rfl, heq⟩ | ⟨hne, hold⟩
      · simp at heq
      · exact inv3 j f0 fp0 hold
    · intro j f0 fp0 htask
      rcases set_getElem?_cases htask with ⟨rfl, heq⟩ | ⟨hne, hold⟩
      · simp at heq
      · exact inv4 j f0 fp0 hold
    · intro j f0 fp0 o0 htask
      rcases set_getElem?_cases htask with ⟨rfl, heq⟩ | ⟨hne, hold⟩
      · simp at heq
      · exact inv5 j f0 fp0 o0 hold
    · intro j k f0 fp0 fp1 htj htk
      rcases set_getElem?_cases htj with ⟨rfl, heqj⟩ | ⟨hnej, holdj⟩
      · simp at heqj
      · rcases set_getElem?_cases htk with ⟨rfl, heqk⟩ | ⟨hnek, holdk⟩
        · simp at heqk
        · exact inv6 j k f0 fp0 fp1 holdj holdk
  | arriveWait i fp f ht hc hp =>
    refine ⟨inv1, inv2, ?_, ?_, ?_, ?_⟩
    · intro j f0 fp0 htask
      rcases set_getElem?_cases htask with ⟨rfl, heq⟩ | ⟨hne, hold⟩
      · simp at heq
      · exact inv3 j f0 fp0 hold
    · intro j f0 fp0 htask
      rcases set_getElem?_cases htask with ⟨rfl, heq⟩ | ⟨hne, hold⟩
      · simp only [TaskState.waiter.injEq] at heq
        obtain ⟨rfl, rfl⟩ := heq
        exact inv2 fp0 f0 hp
      · exact inv4 j f0 fp0 hold
    · intro j f0 fp0 o0 htask
      rcases set_getElem?_cases htask with ⟨rfl, heq⟩ | ⟨hne, hold⟩
      · simp at heq
      · exact inv5 j f0 fp0 o0 hold
    · intro j k f0 fp0 fp1 htj htk
      rcases set_getElem?_cases htj with ⟨rfl, heqj⟩ | ⟨hnej, holdj⟩
      · simp at heqj
      · rcases set_getElem?_cases htk with ⟨rfl, heqk⟩ | ⟨hnek, holdk⟩
        · simp at heqk
        · exact inv6 j k f0 fp0 fp1 holdj holdk
  | arriveStart i fp ht hc hp =>
    refine ⟨?_, ?_, ?_, ?_, ?_, ?_⟩
    · intro f0 fp0 hrun
      rcases append_getElem?_cases hrun with ⟨hlt, hold⟩ | ⟨rfl, heq⟩
      · have hpend := inv1 f0 fp0 hold
        by_cases hfp : fp0 = fp
        · subst hfp
          rw [hp] at hpend
          cases hpend
        · simpa [hfp] using hpend
      · simp only [Prod.mk.injEq] at heq
        obtain ⟨rfl, -⟩ := heq
        simp
    · intro fp0 f0 hpend
      simp only [] at hpend
      by_cases hfp : fp0 = fp
      · subst hfp
        rw [if_pos rfl] at hpend
        simp only [Option.some.injEq] at hpend
        subst hpend
        exact ⟨FetchStatus.running, List.getElem?_concat_length _ _⟩
      · rw [if_neg hfp] at hpend
        obtain ⟨st, hold⟩ := inv2 fp0 f0 hpend
        exact ⟨st, by rw [List.getElem?_append_left (lt_of_getElem? hold)]; exact hold⟩
    · intro j f0 fp0 htask
      rcases set_getElem?_cases htask with ⟨rfl, heq⟩ | ⟨hne, hold⟩
      · simp only [TaskState.owner.injEq] at heq
        obtain ⟨rfl, rfl⟩ := heq
        simp
      · have hpend := inv3 j f0 fp0 hold
        by_cases hfp : fp0 = fp
        · subst hfp
          rw [hp] at hpend
          cases hpend
        · simpa [hfp] using hpend
    · intro j f0 fp0 htask
      rcases set_getElem?_cases htask with ⟨rfl, heq⟩ | ⟨hne, hold⟩
      · simp at heq
      · obtain ⟨st, holdf⟩ := inv4 j f0 fp0 hold
        exact ⟨st, by rw [List.getElem?_append_left (lt_of_getElem? holdf)]; exact holdf⟩
    · intro j f0 fp0 o0 htask
      rcases set_getElem?_cases htask with ⟨rfl, heq⟩ | ⟨hne, hold⟩
      · simp at heq
      · have holdf := inv5 j f0 fp0 o0 hold
        rw [List.getElem?_append_left (lt_of_getElem? holdf)]
        exact holdf
    · intro j k f0 fp0 fp1 htj htk
      rcases set_getElem?_cases htj with ⟨rfl, heqj⟩ | ⟨hnej, holdj⟩
      · rcases set_getElem?_cases htk with ⟨heqk0, heqk⟩ | ⟨hnek, holdk⟩
        · exact heqk0.symm
        · simp only [TaskState.owner.injEq] at heqj
          obtain ⟨-, rfl⟩ := heqj
          have hpend := inv3 k s.fetches.length fp1 holdk
          obtain ⟨st, holdf⟩ := inv2 fp1 s.fetches.length hpend
          exact absurd (lt_of_getElem? holdf) (by omega)
      · rcases set_getElem?_cases htk with ⟨rfl, heqk⟩ | ⟨hnek, holdk⟩
        · simp only [TaskState.owner.injEq] at heqk
          obtain ⟨-, rfl⟩ := heqk
          have hpend := inv3 j s.fetches.length fp0 holdj
          obtain ⟨st, holdf⟩ := inv2 fp0 s.fetches.length hpend
          exact absurd (lt_of_getElem? holdf) (by omega)
        · exact inv6 j k f0 fp0 fp1 holdj holdk
  | fetchDone f fp o hf =>
    refine ⟨?_, ?_, inv3, ?_, ?_, inv6⟩
    · intro f0 fp0 hrun
      rcases set_getElem?_cases hrun with ⟨rfl, heq⟩ | ⟨hne, hold⟩
      · simp at heq
      · exact inv1 f0 fp0 hold
    · intro fp0 f0 hpend
      obtain ⟨st, hold⟩ := inv2 fp0 f0 hpend
      by_cases hff : f0 = f
      · subst hff
        rw [hf] at hold
        simp only [Option.some.injEq, Prod.mk.injEq] at hold
        obtain ⟨rfl, -⟩ := hold
        exact ⟨FetchStatus.completed o,
          by rw [List.getElem?_set_self (lt_of_getElem? hf)]⟩
      · exact ⟨st, by rw [List.getElem?_set_ne (fun hh => hff hh.symm)]; exact hold⟩
    · intro j f0 fp0 htask
      obtain ⟨st, hold⟩ := inv4 j f0 fp0 htask
      by_cases hff : f0 = f
      · subst hff
        rw [hf] at hold
        simp only [Option.some.injEq, Prod.mk.injEq] at hold
        obtain ⟨rfl, -⟩ := hold
        exact ⟨FetchStatus.completed o,
          by rw [List.getElem?_set_self (lt_of_getElem? hf)]⟩
      · exact ⟨st, by rw [List.getElem?_set_ne (fun hh => hff hh.symm)]; exact hold⟩
    · intro j f0 fp0 o0 htask
      have hold := inv5 j f0 fp0 o0 htask
      by_cases hff : f0 = f
      · subst hff
        rw [hf] at hold
        simp at hold
      · rw [List.getElem?_set_ne (fun hh => hff hh.symm)]
        exact hold
  | ownerResume i fp fp' f o ht hf =>
    have hpendf := inv3 i f fp ht
    obtain ⟨st0, holdf0⟩ := inv2 fp f hpendf
    have heqfp : fp' = fp := by
      rw [hf] at holdf0
      simp only [Option.some.injEq, Prod.mk.injEq] at holdf0
      exact holdf0.1
    rw [heqfp] at hf
    refine ⟨?_, ?_, ?_, ?_, ?_, ?_⟩
    · intro f0 fp0 hrun
      have hpend0 := inv1 f0 fp0 hrun
      by_cases hfp : fp0 = fp
      · subst hfp
        rw [hpendf] at hpend0
        simp only [Option.some.injEq] at hpend0
        subst hpend0
        rw [runningAt, hf] at hrun
        simp at hrun
      · simpa [hfp] using hpend0
    · intro fp0 f0 hpend
      simp only [] at hpend
      by_cases hfp : fp0 = fp
      · subst hfp
        rw [if_pos rfl] at hpend
        cases hpend
      · rw [if_neg hfp] at hpend
        exact inv2 fp0 f0 hpend
    · intro j f0 fp0 htask
      rcases set_getElem?_cases htask with ⟨rfl, heq⟩ | ⟨hne, hold⟩
      · simp at heq
      · have hpend0 := inv3 j f0 fp0 hold
        by_cases hfp : fp0 = fp
        · subst hfp
          rw [hpendf] at hpend0
          simp only [Option.some.injEq] at hpend0
          rw [← hpend0] at hold
          exact absurd (inv6 j i f fp0 fp0 hold ht) hne
        · simpa [hfp] using hpend0
    · intro j f0 fp0 htask
      rcases set_getElem?_cases htask with ⟨rfl, heq⟩ | ⟨hne, hold⟩
      · simp at heq
      · exact inv4 j f0 fp0 hold
    · intro j f0 fp0 o0 htask
      rcases set_getElem?_cases htask with ⟨rfl, heq⟩ | ⟨hne, hold⟩
      · simp only [TaskState.finished.injEq, Option.some.injEq] at heq
        obtain ⟨rfl, rfl, rfl⟩ := heq
        exact hf
      · exact inv5 j f0 fp0 o0 hold
    · intro j k f0 fp0 fp1 htj htk
      rcases set_getElem?_cases htj with ⟨rfl, heqj⟩ | ⟨hnej, holdj⟩
      · simp at heqj
      · rcases set_getElem?_cases htk with ⟨rfl, heqk⟩ | ⟨hnek, holdk⟩
        · simp at heqk
        · exact inv6 j k f0 fp0 fp1 holdj holdk
  | waiterResume i fp fp' f o ht hf =>
    obtain ⟨st0, holdf0⟩ := inv4 i f fp ht
    have heqfp : fp' = fp := by
      rw [hf] at holdf0
      simp only [Option.some.injEq, Prod.mk.injEq] at holdf0
      exact holdf0.1
    rw [heqfp] at hf
    refine ⟨inv1, inv2, ?_, ?_, ?_, ?_⟩
    · intro j f0 fp0 htask
      rcases set_getElem?_cases htask with ⟨rfl, heq⟩ | ⟨hne, hold⟩
      · simp at heq
      · exact inv3 j f0 fp0 hold
    · intro j f0 fp0 htask
      rcases set_getElem?_cases htask with ⟨rfl, heq⟩ | ⟨hne, hold⟩
      · simp at heq
      · exact inv4 j f0 fp0 hold
    · intro j f0 fp0 o0 htask
      rcases set_getElem?_cases htask with ⟨rfl, heq⟩ | ⟨hne, hold⟩
      · simp only [TaskState.finished.injEq, Option.some.injEq] at heq
        obtain ⟨rfl, rfl, rfl⟩ := heq
        exact hf
      · exact inv5 j f0 fp0 o0 hold
    · intro j k f0 fp0 fp1 htj htk
      rcases set_getElem?_cases htj with ⟨rfl, heqj⟩ | ⟨hnej, holdj⟩
      · simp at heqj
      · rcases set_getElem?_cases htk with ⟨rfl, heqk⟩ | ⟨hnek, holdk⟩
        · simp at heqk
        · exact inv6 j k f0 fp0 fp1 holdj holdk

lemma inv_reachable {α : Type} {s : CoState α} (h : Reachable s) : Inv s := by
  induction h with
  | base s h => exact inv_init h
  | step s s' h hs ih => exact inv_step ih hs

/-- C1: per process, for every fingerprint at most one upstream fetch is
in flight at any instant in any reachable state; any two callers that
took their outcome from the same fetch received identical outcomes
(success body or error); a caller that arrives at a cache miss while a
pending entry for its fingerprint exists either has not been scheduled
yet or becomes a waiter on that very entry — with no new fetch started
and the pending map unchanged; and no step ever starts a fetch for a
fingerprint that has a pending entry. -/
theorem single_flight_coalescing {α : Type} (s : CoState α) (hreach : Reachable s) :
    (∀ (fp : List Char) (f1 f2 : Nat),
      runningAt s fp f1 → runningAt s fp f2 → f1 = f2)
    ∧ (∀ (i j f : Nat) (fpi fpj : List Char)
        (oi oj : Except (Option (FetchError α)) α),
        s.tasks[i]? = some (TaskState.finished fpi (some f) oi) →
        s.tasks[j]? = some (TaskState.finished fpj (some f) oj) → oi = oj)
    ∧ (∀ (s' : CoState α), CoStep s s' → ∀ (i f : Nat) (fp : List Char),
        s.tasks[i]? = some (TaskState.arrive fp) → s.pending fp = some f →
        (s.cacheEnabled = true → s.cache fp = none) →
        s'.tasks[i]? = some (TaskState.arrive fp)
        ∨ (s'.tasks[i]? = some (TaskState.waiter fp f) ∧ s'.fetches = s.fetches
            ∧ s'.pending = s.pending))
    ∧ (∀ (s' : CoState α), CoStep s s' → ∀ (fp : List Char) (f : Nat),
        s.pending fp = some f →
        s'.fetches.length = s.fetches.length
        ∨ ∃ fp', fp' ≠ fp
            ∧ s'.fetches = s.fetches ++ [(fp', FetchStatus.running)]) := by
  obtain ⟨inv1, inv2, inv3, inv4, inv5, inv6⟩ := inv_reachable hreach
  refine ⟨?_, ?_, ?_, ?_⟩
  · intro fp f1 f2 h1 h2
    have p1 := inv1 f1 fp h1
    have p2 := inv1 f2 fp h2
    rw [p1] at p2
    simpa using p2
  · intro i j f fpi fpj oi oj hi hj
    have e1 := inv5 i f fpi oi hi
    have e2 := inv5 j f fpj oj hj
    rw [e1] at e2
    simp only [Option.some.injEq, Prod.mk.injEq, FetchStatus.completed.injEq] at e2
    exact e2.2
  · intro s' hstep i f fp harr hpend hcache
    cases hstep with
    | arriveHit i' fp' b ht hen hc =>
      by_cases hii : i' = i
      · subst hii
        rw [harr] at ht
        simp only [Option.some.injEq, TaskState.arrive.injEq] at ht
        subst ht
        exact absurd (hcache hen) (by rw [hc]; simp)
      · left
        show (s.tasks.set i' _)[i]? = _
        rw [List.getElem?_set_ne hii]
        exact harr
    | arriveWait i' fp' f' ht hc hp =>
      by_cases hii : i' = i
      · subst hii
        rw [harr] at ht
        simp only [Option.some.injEq, TaskState.arrive.injEq] at ht
        subst ht
        rw [hpend] at hp
        simp only [Option.some.injEq] at hp
        subst hp
        right
        refine ⟨?_, rfl, rfl⟩
        show (s.tasks.set i' _)[i']? = _
        rw [List.getElem?_set_self (lt_of_getElem? harr)]
      · left
        show (s.tasks.set i' _)[i]? = _
        rw [List.getElem?_set_ne hii]
        exact harr
    | arriveStart i' fp' ht hc hp =>
      by_cases hii : i' = i
      · subst hii
        rw [harr] at ht
        simp only [Option.some.injEq, TaskState.arrive.injEq] at ht
        subst ht
        rw [hpend] at hp
        cases hp
      · left
        show (s.tasks.set i' _)[i]? = _
        rw [List.getElem?_set_ne hii]
        exact harr
    | fetchDone f' fp' o hf =>
      left
      exact harr
    | ownerResume i' fp' fp'' f' o ht hf =>
      by_cases hii : i' = i
      · subst hii
        rw [harr] at ht
        simp at ht
      · left
        show (s.tasks.set i' _)[i]? = _
        rw [List.getElem?_set_ne hii]
        exact harr
    | waiterResume i' fp' fp'' f' o ht hf =>
      by_cases hii : i' = i
      · subst hii
        rw [harr] at ht
        simp at ht
      · left
        show (s.tasks.set i' _)[i]? = _
        rw [List.getElem?_set_ne hii]
        exact harr
  · intro s' hstep fp f hpend
    cases hstep with
    | arriveHit i' fp' b ht hen hc => left; rfl
    | arriveWait i' fp' f' ht hc hp => left; rfl
    | arriveStart i' fp' ht hc hp =>
      right
      refine ⟨fp', ?_, rfl⟩
      intro heq
      rw [heq, hpend] at hp
      cases hp
    | fetchDone f' fp' o hf =>
      left
      show (s.fetches.set f' _).length = _
      rw [List.length_set]
    | ownerResume i' fp' fp'' f' o ht hf => left; rfl
    | waiterResume i' fp' fp'' f' o ht hf => left; rfl

/-- Witness for C1: the single-task initial state is reachable, and the
theorem's guarantees hold in it. -/
theorem single_flight_coalescing_witness :
    (∀ (fp : List Char) (f1 f2 : Nat),
      runningAt demoCoState fp f1 → runningAt demoCoState fp f2 → f1 = f2)
    ∧ (∀ (i j f : Nat) (fpi fpj : List Char)
        (oi oj : Except (Option (FetchError Nat)) Nat),
        demoCoState.tasks[i]? = some (TaskState.finished fpi (some f) oi) →
        demoCoState.tasks[j]? = some (TaskState.finished fpj (some f) oj) → oi = oj)
    ∧ (∀ (s' : CoState Nat), CoStep demoCoState s' → ∀ (i f : Nat) (fp : List Char),
        demoCoState.tasks[i]? = some (TaskState.arrive fp) →
        demoCoState.pending fp = some f →
        (demoCoState.cacheEnabled = true → demoCoState.cache fp = none) →
        s'.tasks[i]? = some (TaskState.arrive fp)
        ∨ (s'.tasks[i]? = some (TaskState.waiter fp f)
            ∧ s'.fetches = demoCoState.fetches ∧ s'.pending = demoCoState.pending))
    ∧ (∀ (s' : CoState Nat), CoStep demoCoState s' → ∀ (fp : List Char) (f : Nat),
        demoCoState.pending fp = some f →
        s'.fetches.length = demoCoState.fetches.length
        ∨ ∃ fp', fp' ≠ fp
            ∧ s'.fetches = demoCoState.fetches ++ [(fp', FetchStatus.running)]) :=
  single_flight_coalescing demoCoState
    (Reachable.base demoCoState
      ⟨fun fp => rfl, rfl, by
        intro t ht
        simp only [demoCoState, List.mem_singleton] at ht
        exact ⟨generateCacheKey sampleParamsA, ht⟩⟩)

end Weather
